import Mathlib

/-!
Verification of `mac_maintenance.py` against its specification.

Python strings are modelled as Lean `String` (a wrapper around `List Char`);
the Python string operations used by the program (`in`, `startswith`,
`endswith`, `lower`, `splitlines`, slicing, `str.join`) are given explicit
executable definitions over the underlying character lists.  Character
classification (`isalnum`, `lower`) is modelled over the ASCII range, which
is the range exercised by every string constant of the program.  Filesystem
state, subprocess outcomes and the current date are passed explicitly where
a function consults them.
-/

/-! ### Python string primitives -/

/-- Does `n` occur as a contiguous run inside the second list?
Models the Python `in` operator on `str`. -/
def containsSub (n : List Char) : List Char → Bool
  | [] => n.isEmpty
  | c :: t => n.isPrefixOf (c :: t) || containsSub n t

/-- Python `needle in hay` for strings. -/
def strContains (hay needle : String) : Bool :=
  containsSub needle.data hay.data

/-- Python `s.startswith(p)`. -/
def strStartsWith (s p : String) : Bool :=
  p.data.isPrefixOf s.data

/-- Python `s.endswith(p)`. -/
def strEndsWith (s p : String) : Bool :=
  p.data.isSuffixOf s.data

/-- Python `s.lower()` (ASCII range). -/
def strLower (s : String) : String :=
  ⟨s.data.map Char.toLower⟩

/-- Python truthiness of an `Optional[str]`: `None` and `""` are falsy. -/
def truthyOptStr : Option String → Bool
  | none => false
  | some s => !s.data.isEmpty

/-! ### `CommandResult` (the spec's CheckResult) -/

/-- `CommandResult` dataclass of `mac_maintenance.py`.  The duration is
irrelevant to classification and is modelled as a natural number of ticks. -/
structure CommandResult where
  title : String
  command : String
  duration_s : Nat
  returncode : Option Int
  stdout : String
  stderr : String
  skipped_reason : Option String := none
deriving Repr, DecidableEq

/-- The four permission-denied phrases tested by `badge_for_result`. -/
def permission_phrases : List String :=
  ["operation not permitted", "not authorized", "permission denied",
   "requires full disk access"]

/-- `badge_for_result` of `mac_maintenance.py` (lines 539-567), translated
branch by branch. -/
def badge_for_result (r : CommandResult) : String × String :=
  if truthyOptStr r.skipped_reason then ("warn", "SKIPPED")
  else if r.returncode == some 0 then ("ok", "OK")
  else
    match r.returncode with
    | none =>
        if strStartsWith r.stderr "[exception]" then ("bad", "EXC")
        else ("warn", "TIMEOUT")
    | some code =>
        if code == 126 || code == 127 then ("warn", "MISSING")
        else
          let err := strLower r.stderr
          if permission_phrases.any (fun s => strContains err s) then
            ("warn", "RC=" ++ toString code)
          else if code == 1 then ("warn", "RC=1")
          else ("bad", "RC=" ++ toString code)

/-- The Result Classifier table of spec section 4.2, rows evaluated top to
bottom.  "Has a skip reason" is read as the reason being present and
non-empty, exactly the truth test the data model's producer uses. -/
def classify_table (r : CommandResult) : String × String :=
  if truthyOptStr r.skipped_reason then ("warn", "SKIPPED")
  else if r.returncode = some 0 then ("ok", "OK")
  else
    match r.returncode with
    | none =>
        if strStartsWith r.stderr "[exception]" then ("bad", "EXC")
        else ("warn", "TIMEOUT")
    | some code =>
        if code = 126 ∨ code = 127 then ("warn", "MISSING")
        else if permission_phrases.any
            (fun s => strContains (strLower r.stderr) s) then
          ("warn", "RC=" ++ toString code)
        else if code = 1 then ("warn", "RC=1")
        else ("bad", "RC=" ++ toString code)

/-- C1: `badge_for_result` computes exactly the (status, badge) pair given
by the spec's classification table, for every `CommandResult`: a (non-empty)
skip reason gives `(warn, SKIPPED)` regardless of exit code and stderr, exit
code `0` gives `(ok, OK)` regardless of stderr, a missing exit code gives
`(bad, EXC)` when stderr starts with `[exception]` and `(warn, TIMEOUT)`
otherwise, exit code 126/127 gives `(warn, MISSING)`, a permission-denied
phrase in stderr gives `(warn, RC=code)`, exit code 1 gives `(warn, RC=1)`,
and anything else gives `(bad, RC=code)`. -/
theorem badge_matches_spec_table :
    ∀ r : CommandResult, badge_for_result r = classify_table r := by
  intro r
  obtain ⟨t, c, d, rc, out, err, sk⟩ := r
  unfold badge_for_result classify_table
  rcases rc with _ | code <;>
    simp only [Bool.or_eq_true, beq_iff_eq, Option.some.injEq, or_iff_not_imp_left]

/-! ### `_slugify` (C10) -/

/-- The loop body of `_slugify`: walk the lowered characters keeping
alphanumerics and collapsing runs of other characters into one dash,
tracked by the `last_dash` flag. -/
def slugKeep : List Char → Bool → List Char
  | [], _ => []
  | c :: rest, last_dash =>
    if c.isAlphanum then c :: slugKeep rest false
    else if !last_dash then '-' :: slugKeep rest true
    else slugKeep rest last_dash

/-- Python `s.strip("-")`: remove every leading and trailing dash. -/
def stripDashes (cs : List Char) : List Char :=
  ((cs.dropWhile (· == '-')).reverse.dropWhile (· == '-')).reverse

/-- `_slugify` of `mac_maintenance.py` (lines 570-581). -/
def _slugify (text : String) : String :=
  let slug := stripDashes (slugKeep (text.data.map Char.toLower) false)
  if slug.isEmpty then "section" else ⟨slug⟩

/-- Two adjacent dashes somewhere in the list. -/
def hasDoubleDash : List Char → Bool
  | [] => false
  | [_] => false
  | a :: b :: rest => (a == '-' && b == '-') || hasDoubleDash (b :: rest)

theorem toNat_ofNatAux (n : Nat) (h : n.isValidChar) :
    (Char.ofNatAux n h).toNat = n := by
  simp [Char.ofNatAux, Char.toNat, UInt32.toNat]

theorem toLower_toNat (c : Char) :
    (Char.toLower c).toNat =
      if 65 ≤ c.toNat ∧ c.toNat ≤ 90 then c.toNat + 32 else c.toNat := by
  unfold Char.toLower
  split
  · next h =>
    have hv : (c.toNat + 32).isValidChar := by
      left
      omega
    rw [if_pos ⟨h.1, h.2⟩, Char.ofNat, dif_pos hv]
    exact toNat_ofNatAux _ hv
  · next h =>
    rw [if_neg]
    intro hc
    exact h ⟨hc.1, hc.2⟩

theorem isUpper_iff_toNat (c : Char) :
    c.isUpper = true ↔ 65 ≤ c.toNat ∧ c.toNat ≤ 90 := by
  simp only [Char.isUpper, Bool.and_eq_true, decide_eq_true_eq]
  constructor
  · rintro ⟨h1, h2⟩
    exact ⟨by simpa using h1, by simpa using h2⟩
  · rintro ⟨h1, h2⟩
    exact ⟨by simpa using h1, by simpa using h2⟩

theorem toLower_not_upper (c : Char) : (Char.toLower c).isUpper = false := by
  rw [Bool.eq_false_iff]
  intro hu
  rw [isUpper_iff_toNat, toLower_toNat] at hu
  split at hu <;> omega

theorem toLower_of_not_upper (c : Char) (h : c.isUpper = false) :
    Char.toLower c = c := by
  unfold Char.toLower
  rw [if_neg]
  intro hc
  rw [Bool.eq_false_iff] at h
  exact h ((isUpper_iff_toNat c).2 ⟨hc.1, hc.2⟩)

theorem slugKeep_mem (cs : List Char) :
    ∀ ld, ∀ x ∈ slugKeep cs ld, x = '-' ∨ (x ∈ cs ∧ x.isAlphanum = true) := by
  induction cs with
  | nil => intro ld x hx; cases hx
  | cons c rest ih =>
    intro ld x hx
    unfold slugKeep at hx
    split_ifs at hx with h1 h2
    · rw [List.mem_cons] at hx
      rcases hx with rfl | hx
      · exact Or.inr ⟨List.mem_cons_self _ _, h1⟩
      · rcases ih false x hx with h | ⟨hm, ha⟩
        · exact Or.inl h
        · exact Or.inr ⟨List.mem_cons_of_mem c hm, ha⟩
    · rw [List.mem_cons] at hx
      rcases hx with rfl | hx
      · exact Or.inl rfl
      · rcases ih true x hx with h | ⟨hm, ha⟩
        · exact Or.inl h
        · exact Or.inr ⟨List.mem_cons_of_mem c hm, ha⟩
    · rcases ih ld x hx with h | ⟨hm, ha⟩
      · exact Or.inl h
      · exact Or.inr ⟨List.mem_cons_of_mem c hm, ha⟩

theorem slugKeep_head_true (cs : List Char) :
    ∀ x, (slugKeep cs true).head? = some x → x.isAlphanum = true := by
  induction cs with
  | nil => intro x hx; cases hx
  | cons c rest ih =>
    intro x hx
    unfold slugKeep at hx
    split_ifs at hx with h1 h2
    · simp only [List.head?_cons, Option.some.injEq] at hx
      rwa [hx] at h1
    · simp at h2
    · exact ih x hx

theorem hasDoubleDash_cons (a : Char) (l : List Char)
    (ha : a ≠ '-') (hl : hasDoubleDash l = false) :
    hasDoubleDash (a :: l) = false := by
  cases l with
  | nil => rfl
  | cons b rest =>
    unfold hasDoubleDash
    simp only [Bool.or_eq_false_iff, Bool.and_eq_false_iff]
    exact ⟨Or.inl (by simpa using ha), hl⟩

theorem slugKeep_noDoubleDash (cs : List Char) :
    ∀ ld, hasDoubleDash (slugKeep cs ld) = false := by
  induction cs with
  | nil => intro ld; rfl
  | cons c rest ih =>
    intro ld
    unfold slugKeep
    split_ifs with h1 h2
    · refine hasDoubleDash_cons c _ ?_ (ih false)
      intro hc
      rw [hc] at h1
      exact absurd h1 (by decide)
    · cases hk : slugKeep rest true with
      | nil => rfl
      | cons b r2 =>
        have hx : b.isAlphanum = true := by
          apply slugKeep_head_true rest b
          rw [hk]
          rfl
        unfold hasDoubleDash
        simp only [Bool.or_eq_false_iff, Bool.and_eq_false_iff]
        refine ⟨Or.inr ?_, ?_⟩
        · simp only [beq_eq_false_iff_ne, ne_eq]
          intro hb
          rw [hb] at hx
          exact absurd hx (by decide)
        · have := ih true
          rwa [hk] at this
    · exact ih ld

theorem hasDoubleDash_append_right (u l : List Char)
    (h : hasDoubleDash (u ++ l) = false) : hasDoubleDash l = false := by
  induction u with
  | nil => exact h
  | cons a u ih =>
    apply ih
    rw [List.cons_append] at h
    cases hul : u ++ l with
    | nil => rfl
    | cons b r =>
      rw [hul] at h
      unfold hasDoubleDash at h
      simp only [Bool.or_eq_false_iff] at h
      exact h.2

theorem hasDoubleDash_iff_infix_dashes (l : List Char) :
    hasDoubleDash l = true ↔ ['-', '-'] <:+: l := by
  induction l with
  | nil =>
    simp only [hasDoubleDash]
    constructor
    · intro h; cases h
    · intro h
      have := h.sublist.length_le
      simp at this
  | cons a rest ih =>
    cases rest with
    | nil =>
      simp only [hasDoubleDash]
      constructor
      · intro h; cases h
      · intro h
        have := h.sublist.length_le
        simp at this
    | cons b r2 =>
      unfold hasDoubleDash
      rw [List.infix_cons_iff]
      simp only [Bool.or_eq_true, Bool.and_eq_true, beq_iff_eq]
      constructor
      · rintro (⟨ha, hb⟩ | h)
        · subst ha; subst hb
          exact Or.inl ⟨r2, rfl⟩
        · exact Or.inr (ih.1 h)
      · rintro (h | h)
        · left
          rw [List.cons_prefix_cons] at h
          obtain ⟨ha, h⟩ := h
          rw [List.cons_prefix_cons] at h
          exact ⟨ha.symm, h.1.symm⟩
        · exact Or.inr (ih.2 h)

theorem hasDoubleDash_suffix (l₁ l₂ : List Char) (h : l₁ <:+ l₂)
    (h2 : hasDoubleDash l₂ = false) : hasDoubleDash l₁ = false := by
  obtain ⟨u, rfl⟩ := h
  exact hasDoubleDash_append_right u l₁ h2

theorem hasDoubleDash_reverse (l : List Char) :
    hasDoubleDash l.reverse = hasDoubleDash l := by
  rcases h1 : hasDoubleDash l.reverse with _ | _ <;>
    rcases h2 : hasDoubleDash l with _ | _ <;> try rfl
  · rw [Bool.eq_false_iff] at h1
    exfalso
    apply h1
    rw [hasDoubleDash_iff_infix_dashes] at h2 ⊢
    have : (['-', '-'] : List Char).reverse <:+: l.reverse :=
      List.reverse_infix.2 h2
    simpa using this
  · rw [Bool.eq_false_iff] at h2
    exfalso
    apply h2
    rw [hasDoubleDash_iff_infix_dashes] at h1 ⊢
    have := List.reverse_infix.2 h1
    simpa using this

theorem head_dropWhile (p : Char → Bool) (l : List Char) :
    ∀ x, ((l.dropWhile p).head? = some x) → p x = false := by
  induction l with
  | nil => intro x hx; cases hx
  | cons a rest ih =>
    intro x hx
    rw [List.dropWhile_cons] at hx
    split_ifs at hx with h
    · exact ih x hx
    · simp only [List.head?_cons, Option.some.injEq] at hx
      rw [Bool.eq_false_iff]
      intro hp
      rw [hx] at h
      exact h hp

theorem getLast?_of_suffix (l₁ l₂ : List Char) (h : l₁ <:+ l₂) (hn : l₁ ≠ []) :
    l₁.getLast? = l₂.getLast? := by
  obtain ⟨u, rfl⟩ := h
  rw [List.getLast?_append_of_ne_nil u hn]

theorem stripDashes_head (l : List Char) : (stripDashes l).head? ≠ some '-' := by
  unfold stripDashes
  rw [List.head?_reverse]
  cases hBe : (l.dropWhile (· == '-')).reverse.dropWhile (· == '-') with
  | nil => simp
  | cons b r =>
    have hsuf : (b :: r) <:+ (l.dropWhile (· == '-')).reverse := by
      rw [← hBe]
      exact List.dropWhile_suffix _
    rw [getLast?_of_suffix _ _ hsuf (by simp), List.getLast?_reverse]
    intro hc
    exact absurd (head_dropWhile _ l '-' hc) (by simp)

theorem stripDashes_getLast (l : List Char) :
    (stripDashes l).getLast? ≠ some '-' := by
  unfold stripDashes
  rw [List.getLast?_reverse]
  intro hc
  exact absurd (head_dropWhile _ _ '-' hc) (by simp)

theorem stripDashes_noDoubleDash (l : List Char)
    (hdd : hasDoubleDash l = false) :
    hasDoubleDash (stripDashes l) = false := by
  unfold stripDashes
  rw [hasDoubleDash_reverse]
  refine hasDoubleDash_suffix _ _ (List.dropWhile_suffix _) ?_
  rw [hasDoubleDash_reverse]
  exact hasDoubleDash_suffix _ _ (List.dropWhile_suffix _) hdd

theorem stripDashes_mem (l : List Char) : ∀ x ∈ stripDashes l, x ∈ l := by
  intro x hx
  unfold stripDashes at hx
  rw [List.mem_reverse] at hx
  have hx2 := (List.dropWhile_suffix (· == '-')).sublist.subset hx
  rw [List.mem_reverse] at hx2
  exact (List.dropWhile_suffix _).sublist.subset hx2

/-- C10: for every input, `_slugify` returns a non-empty string of
lowercase alphanumerics and dashes, with no leading, trailing or doubled
dash, and returns the fallback `"section"` when the input has no
alphanumeric character at all. -/
theorem slugify_wellformed (s : String) :
    (_slugify s).data ≠ [] ∧
      (∀ c ∈ (_slugify s).data,
        (c.isAlphanum = true ∧ c.isUpper = false) ∨ c = '-') ∧
      (_slugify s).data.head? ≠ some '-' ∧
      (_slugify s).data.getLast? ≠ some '-' ∧
      hasDoubleDash (_slugify s).data = false ∧
      ((∀ c ∈ s.data, c.isAlphanum = false) → _slugify s = "section") := by
  have hval : _slugify s =
      if (stripDashes (slugKeep (s.data.map Char.toLower) false)).isEmpty
      then "section"
      else ⟨stripDashes (slugKeep (s.data.map Char.toLower) false)⟩ := rfl
  have hdd := slugKeep_noDoubleDash (s.data.map Char.toLower) false
  rw [hval]
  split_ifs with he
  · refine ⟨by decide, by decide, by decide, by decide, by decide,
      fun _ => rfl⟩
  · refine ⟨?_, ?_, stripDashes_head _, stripDashes_getLast _,
      stripDashes_noDoubleDash _ hdd, ?_⟩
    · simpa [List.isEmpty_iff] using he
    · intro c hc
      rcases slugKeep_mem _ false c (stripDashes_mem _ c hc) with h | ⟨hm, ha⟩
      · exact Or.inr h
      · rw [List.mem_map] at hm
        obtain ⟨c0, _, rfl⟩ := hm
        exact Or.inl ⟨ha, toLower_not_upper c0⟩
    · intro hnone
      exfalso
      apply he
      simp only [List.isEmpty_iff, stripDashes, List.reverse_eq_nil_iff,
        List.dropWhile_eq_nil_iff]
      intro x hx
      rw [List.mem_reverse] at hx
      have hx2 := (List.dropWhile_suffix (· == '-')).sublist.subset hx
      rcases slugKeep_mem _ false x hx2 with h | ⟨hm, ha⟩
      · simp [h]
      · exfalso
        rw [List.mem_map] at hm
        obtain ⟨c0, hc0, rfl⟩ := hm
        have hnu : c0.isUpper = false := by
          rw [Bool.eq_false_iff]
          intro hu
          have hca : c0.isAlphanum = true := by
            simp [Char.isAlphanum, Char.isAlpha, hu]
          rw [hnone c0 hc0] at hca
          cases hca
        rw [toLower_of_not_upper c0 hnu, hnone c0 hc0] at ha
        cases ha

/-- Witness for C10 at a concrete input: a punctuation-only string falls
back to `"section"`; the hypothesis is discharged by computation. -/
theorem slugify_wellformed_witness : _slugify "!!!" = "section" :=
  (slugify_wellformed "!!!").2.2.2.2.2 (by decide)

/-! ### `_truncate_text` (C5) -/

/-- The line separators of Python `str.splitlines`. -/
def isLineSep (c : Char) : Bool :=
  c == '\n' || c == '\r' || c == '\x0b' || c == '\x0c' ||
  c == '\x1c' || c == '\x1d' || c == '\x1e' || c == '\x85' ||
  c == ' ' || c == ' '

/-- Worker for Python `str.splitlines`: `acc` is the current line reversed
and `justCR` records that the previous character was a carriage return, so
that a directly following newline is part of the same `\r\n` separator.  A
trailing separator contributes no empty final line. -/
def splitlinesGo : List Char → List Char → Bool → List (List Char)
  | [], acc, _ => if acc.isEmpty then [] else [acc.reverse]
  | c :: rest, acc, justCR =>
    if justCR && c == '\n' then splitlinesGo rest acc false
    else if isLineSep c then
      acc.reverse :: splitlinesGo rest [] (c == '\r')
    else splitlinesGo rest (c :: acc) false

/-- Python `text.splitlines()`. -/
def py_splitlines (cs : List Char) : List (List Char) :=
  splitlinesGo cs [] false

/-- Python `"\n".join(lines)`. -/
def py_join : List (List Char) → List Char
  | [] => []
  | [l] => l
  | l :: ls => l ++ '\n' :: py_join ls

/-- `_truncate_text` of `mac_maintenance.py` (lines 434-446): cap the line
count, rejoin with newlines, cap the character count, and report whether
either cap was hit. -/
def _truncate_text (text : List Char) (max_chars max_lines : Nat) :
    List Char × Bool :=
  if text.isEmpty then ([], false)
  else
    let lines := py_splitlines text
    let lines2 := if lines.length > max_lines then lines.take max_lines
                  else lines
    let text2 := py_join lines2
    let text3 := if text2.length > max_chars then text2.take max_chars
                 else text2
    (text3, decide (lines.length > max_lines) ||
      decide (text2.length > max_chars))

/-- Every separator occurring in the list is a plain newline. -/
def onlyNL (u : List Char) : Prop :=
  ∀ c ∈ u, isLineSep c = true → c = '\n'

theorem splitlinesGo_ne_nil_of_acc (cs : List Char) :
    ∀ acc : List Char, acc ≠ [] → ∀ b, splitlinesGo cs acc b ≠ [] := by
  induction cs with
  | nil =>
    intro acc h b
    unfold splitlinesGo
    rw [if_neg (by simpa [List.isEmpty_iff] using h)]
    simp
  | cons c rest ih =>
    intro acc h b
    unfold splitlinesGo
    split_ifs with h1 h2
    · exact ih acc h false
    · simp
    · exact ih (c :: acc) (by simp) false

theorem splitlinesGo_ne_nil (cs : List Char) (h : cs ≠ []) :
    ∀ acc, splitlinesGo cs acc false ≠ [] := by
  intro acc
  cases cs with
  | nil => exact absurd rfl h
  | cons c rest =>
    unfold splitlinesGo
    split_ifs with h1 h2
    · simp at h1
    · simp
    · exact splitlinesGo_ne_nil_of_acc rest (c :: acc) (by simp) false

theorem splitlinesGo_sepFree (cs : List Char) :
    ∀ acc b, (∀ c ∈ acc, isLineSep c = false) →
      ∀ l ∈ splitlinesGo cs acc b, ∀ c ∈ l, isLineSep c = false := by
  induction cs with
  | nil =>
    intro acc b hacc l hl c hc
    unfold splitlinesGo at hl
    split_ifs at hl with h1
    · cases hl
    · rw [List.mem_singleton] at hl
      subst hl
      rw [List.mem_reverse] at hc
      exact hacc c hc
  | cons a rest ih =>
    intro acc b hacc l hl c hc
    unfold splitlinesGo at hl
    split_ifs at hl with h1 h2
    · exact ih acc false hacc l hl c hc
    · rw [List.mem_cons] at hl
      rcases hl with rfl | hl
      · rw [List.mem_reverse] at hc
        exact hacc c hc
      · exact ih [] (a == '\r') (by simp) l hl c hc
    · refine ih (a :: acc) false ?_ l hl c hc
      intro x hx
      rw [List.mem_cons] at hx
      rcases hx with rfl | hx
      · simpa using h2
      · exact hacc x hx

theorem splitlinesGo_length_le (cs : List Char) (honly : onlyNL cs) :
    ∀ acc, (splitlinesGo cs acc false).length ≤ cs.count '\n' + 1 := by
  induction cs with
  | nil =>
    intro acc
    unfold splitlinesGo
    split_ifs <;> simp
  | cons c rest ih =>
    intro acc
    have honly' : onlyNL rest :=
      fun x hx h => honly x (List.mem_cons_of_mem c hx) h
    unfold splitlinesGo
    rw [if_neg (by simp)]
    by_cases h2 : isLineSep c = true
    · have hc : c = '\n' := honly c (List.mem_cons_self c rest) h2
      subst hc
      rw [if_pos (by decide)]
      simp only [show (('\n' : Char) == '\x0d') = false from rfl]
      rw [List.length_cons, List.count_cons_self]
      have := ih honly' []
      omega
    · rw [if_neg h2]
      have hc : ('\n' : Char) ≠ c := by
        intro hcc
        rw [← hcc] at h2
        exact h2 (by decide)
      rw [List.count_cons_of_ne (by simpa using hc)]
      exact ih honly' (c :: acc)

theorem py_join_cons (x : List Char) (S : List (List Char)) (h : S ≠ []) :
    py_join (x :: S) = x ++ '\n' :: py_join S := by
  cases S with
  | nil => exact absurd rfl h
  | cons y ys => rfl

theorem py_join_splitlinesGo (cs : List Char) (honly : onlyNL cs) :
    ∀ acc, cs.getLast? ≠ some '\n' →
      py_join (splitlinesGo cs acc false) = acc.reverse ++ cs := by
  induction cs with
  | nil =>
    intro acc _
    unfold splitlinesGo
    split_ifs with h1
    · rw [List.isEmpty_iff] at h1
      subst h1
      rfl
    · simp [py_join]
  | cons c rest ih =>
    intro acc hlast
    have honly' : onlyNL rest :=
      fun x hx h => honly x (List.mem_cons_of_mem c hx) h
    unfold splitlinesGo
    rw [if_neg (by simp)]
    by_cases h2 : isLineSep c = true
    · have hc : c = '\n' := honly c (List.mem_cons_self c rest) h2
      subst hc
      rw [if_pos (by decide)]
      simp only [show (('\n' : Char) == '\x0d') = false from rfl]
      cases rest with
      | nil => simp at hlast
      | cons r1 rest' =>
        have hlast' : (r1 :: rest').getLast? ≠ some '\n' := by
          rwa [List.getLast?_cons_cons] at hlast
        rw [py_join_cons _ _ (splitlinesGo_ne_nil (r1 :: rest') (by simp) [])]
        rw [ih honly' [] hlast']
        simp
    · rw [if_neg h2]
      have hlast' : rest.getLast? ≠ some '\n' := by
        cases rest with
        | nil => simp
        | cons r1 rest' => rwa [List.getLast?_cons_cons] at hlast
      rw [ih honly' (c :: acc) hlast']
      simp

theorem mem_py_join (ls : List (List Char)) :
    ∀ x ∈ py_join ls, (∃ l ∈ ls, x ∈ l) ∨ x = '\n' := by
  induction ls with
  | nil => intro x hx; cases hx
  | cons l ls ih =>
    intro x hx
    cases ls with
    | nil =>
      exact Or.inl ⟨l, List.mem_singleton_self l, hx⟩
    | cons l2 ls2 =>
      rw [py_join_cons _ _ (by simp), List.mem_append] at hx
      rcases hx with hx | hx
      · exact Or.inl ⟨l, List.mem_cons_self _ _, hx⟩
      · rw [List.mem_cons] at hx
        rcases hx with rfl | hx
        · exact Or.inr rfl
        · rcases ih x hx with ⟨l3, hl3, hx3⟩ | hx3
          · exact Or.inl ⟨l3, List.mem_cons_of_mem l hl3, hx3⟩
          · exact Or.inr hx3

theorem count_py_join_le (ls : List (List Char)) (hne : ls ≠ [])
    (h : ∀ l ∈ ls, l.count '\n' = 0) :
    (py_join ls).count '\n' + 1 ≤ ls.length := by
  induction ls with
  | nil => exact absurd rfl hne
  | cons l ls ih =>
    cases ls with
    | nil =>
      simp [py_join, h l (List.mem_singleton_self l)]
    | cons l2 ls2 =>
      rw [py_join_cons _ _ (by simp), List.count_append, List.count_cons_self]
      have h1 : l.count '\n' = 0 := h l (List.mem_cons_self _ _)
      have h2 := ih (by simp) (fun x hx => h x (List.mem_cons_of_mem l hx))
      rw [h1]
      simp only [List.length_cons] at h2 ⊢
      omega

theorem truncate_empty (mc ml : Nat) : _truncate_text [] mc ml = ([], false) := by
  simp [_truncate_text]

theorem truncate_fst_spec (text : List Char) (mc ml : Nat)
    (hE : text.isEmpty = false) :
    (_truncate_text text mc ml).1 =
      if (py_join (if (py_splitlines text).length > ml
            then (py_splitlines text).take ml
            else py_splitlines text)).length > mc
      then (py_join (if (py_splitlines text).length > ml
            then (py_splitlines text).take ml
            else py_splitlines text)).take mc
      else py_join (if (py_splitlines text).length > ml
            then (py_splitlines text).take ml
            else py_splitlines text) := by
  simp only [_truncate_text, hE, Bool.false_eq_true, if_false]

theorem truncate_fixes (t : List Char) (mc ml : Nat)
    (honly : onlyNL t) (hlast : t.getLast? ≠ some '\n')
    (hlen : t.length ≤ mc) (hlines : (py_splitlines t).length ≤ ml) :
    _truncate_text t mc ml = (t, false) := by
  by_cases htE : t.isEmpty = true
  · rw [List.isEmpty_iff] at htE
    subst htE
    exact truncate_empty mc ml
  · rw [Bool.not_eq_true] at htE
    have hjoin : py_join (py_splitlines t) = t := by
      have := py_join_splitlinesGo t honly [] hlast
      simpa [py_splitlines] using this
    simp only [_truncate_text, htE, Bool.false_eq_true, if_false]
    have hninner : ¬ ((py_splitlines t).length > ml) := by omega
    rw [if_neg hninner, hjoin, if_neg (by omega)]
    refine Prod.ext rfl ?_
    simp only [Bool.or_eq_false_iff, decide_eq_false_iff_not]
    exact ⟨by omega, by omega⟩

/-- The counterexample to the claim as stated: re-truncating with the same
limits is not the identity on truncated output.  Cutting `ab\ncd` at three
characters leaves the trailing newline `ab\n`, whose re-truncation is `ab`;
and a stored output with the appended truncation note is cut back down on
re-truncation. -/
theorem truncate_not_idempotent :
    ((_truncate_text ((_truncate_text ['a', 'b', '\n', 'c', 'd'] 3 10).1)
        3 10).1 ≠ (_truncate_text ['a', 'b', '\n', 'c', 'd'] 3 10).1) ∧
      ((_truncate_text ((_truncate_text "abcdef".data 3 500).1 ++
          ('\n' :: '\n' :: "[output truncated]".data)) 3 500).1 ≠
        (_truncate_text "abcdef".data 3 500).1 ++
          ('\n' :: '\n' :: "[output truncated]".data)) := by
  constructor
  · decide
  · decide

/-- C5 amended: truncation is idempotent (and the second pass reports no
cut) for every input whose first truncation result does not end with a
newline; it fails exactly when the character cap cuts directly after a line
break (and on the stored outputs once the truncation note is appended). -/
theorem truncate_idempotent_of_no_trailing_newline
    (text : List Char) (max_chars max_lines : Nat)
    (h : (_truncate_text text max_chars max_lines).1.getLast? ≠ some '\n') :
    _truncate_text ((_truncate_text text max_chars max_lines).1)
        max_chars max_lines =
      ((_truncate_text text max_chars max_lines).1, false) := by
  by_cases hE : text.isEmpty = true
  · rw [List.isEmpty_iff] at hE
    subst hE
    rw [truncate_empty]
    exact truncate_empty _ _
  · rw [Bool.not_eq_true] at hE
    have hspec := truncate_fst_spec text max_chars max_lines hE
    set L := py_splitlines text with hL
    set L2 := if L.length > max_lines then L.take max_lines else L with hL2
    set T2 := py_join L2 with hT2
    have hspec' : (_truncate_text text max_chars max_lines).1 =
        if T2.length > max_chars then T2.take max_chars else T2 := hspec
    set t := (_truncate_text text max_chars max_lines).1 with ht
    have htsub : t.Sublist T2 := by
      rw [hspec']
      split_ifs
      · exact List.take_sublist _ _
      · exact List.Sublist.refl _
    have hL2sub : L2.Sublist L := by
      rw [hL2]
      split_ifs
      · exact List.take_sublist _ _
      · exact List.Sublist.refl _
    have hsepfree : ∀ l ∈ L2, ∀ c ∈ l, isLineSep c = false := by
      intro l hl c hc
      exact splitlinesGo_sepFree text [] false (by simp) l
        (hL2sub.subset hl) c hc
    have honly : onlyNL t := by
      intro c hc hsep
      rcases mem_py_join L2 c (htsub.subset hc) with ⟨l, hl, hcl⟩ | hnl
      · rw [hsepfree l hl c hcl] at hsep
        cases hsep
      · exact hnl
    have hlen : t.length ≤ max_chars := by
      rw [hspec']
      split_ifs with hgt
      · rw [List.length_take]
        omega
      · omega
    by_cases htnil : t = []
    · rw [htnil]
      exact truncate_empty _ _
    · have hT2ne : T2 ≠ [] := by
        intro hT2nil
        apply htnil
        rw [hspec', hT2nil]
        simp
      have hL2ne : L2 ≠ [] := by
        intro hnil
        apply hT2ne
        rw [hT2, hnil]
        rfl
      have hL2len : L2.length ≤ max_lines := by
        rw [hL2]
        split_ifs with hgt
        · rw [List.length_take]
          omega
        · omega
      have hcount : (py_splitlines t).length ≤ max_lines := by
        have h1 : (py_splitlines t).length ≤ t.count '\n' + 1 :=
          splitlinesGo_length_le t honly []
        have h2 : t.count '\n' ≤ T2.count '\n' := htsub.count_le '\n'
        have h3 : T2.count '\n' + 1 ≤ L2.length := by
          rw [hT2]
          refine count_py_join_le L2 hL2ne ?_
          intro l hl
          rw [List.count_eq_zero]
          intro hmem
          have := hsepfree l hl '\n' hmem
          exact absurd this (by decide)
        omega
      exact truncate_fixes t max_chars max_lines honly h hlen hcount

/-- Witness for the amended C5 at a concrete input: `abc` cut to two
characters gives `ab`, which re-truncates to itself with no cut reported. -/
theorem truncate_idempotent_witness :
    _truncate_text ((_truncate_text ['a', 'b', 'c'] 2 5).1) 2 5 =
      ((_truncate_text ['a', 'b', 'c'] 2 5).1, false) :=
  truncate_idempotent_of_no_trailing_newline ['a', 'b', 'c'] 2 5 (by decide)

/-! ### `_ensure_path_prefix` (C6) -/

/-- `_ensure_path_prefix` of `mac_maintenance.py` (lines 449-454), acting on
the value of the `PATH` variable of the starting environment (`none` when
`PATH` is absent; `env.get` then yields `""`).  The function leaves `PATH`
unchanged when the string `/usr/sbin:/sbin` already occurs in it as a
substring, and otherwise prepends it. -/
def _ensure_path_prefix' (pathVar : Option String) : String :=
  let path := pathVar.getD ""
  if strContains path "/usr/sbin:/sbin" then path
  else if path.data.isEmpty then "/usr/sbin:/sbin"
  else "/usr/sbin:/sbin" ++ ":" ++ path

/-- Splitting a character list at colons, accumulating the current entry
reversed; models Python `path.split(":")`, the meaning of `PATH` entries. -/
def splitColon : List Char → List Char → List String
  | [], acc => [⟨acc.reverse⟩]
  | c :: rest, acc =>
    if c == ':' then ⟨acc.reverse⟩ :: splitColon rest []
    else splitColon rest (c :: acc)

/-- The entries of a `PATH` value. -/
def pathEntries (s : String) : List String :=
  splitColon s.data []

theorem splitColon_cons (c : Char) (rest acc : List Char) :
    splitColon (c :: rest) acc =
      if c == ':' then ⟨acc.reverse⟩ :: splitColon rest []
      else splitColon rest (c :: acc) := rfl

theorem splitColon_append (xs : List Char)
    (hx : ∀ c ∈ xs, (c == ':') = false) (rest : List Char) :
    ∀ acc, splitColon (xs ++ ':' :: rest) acc =
      ⟨acc.reverse ++ xs⟩ :: splitColon rest [] := by
  induction xs with
  | nil =>
    intro acc
    rw [List.nil_append, splitColon_cons, if_pos (by decide : ((':' == ':') = true))]
    simp
  | cons x xs ih =>
    intro acc
    rw [List.cons_append, splitColon_cons,
      if_neg (by simpa using hx x (List.mem_cons_self _ _)),
      ih (fun c hc => hx c (List.mem_cons_of_mem x hc)) (x :: acc)]
    simp

theorem containsSub_append_left (n rest : List Char) (hn : n ≠ []) :
    containsSub n (n ++ rest) = true := by
  cases n with
  | nil => exact absurd rfl hn
  | cons c t =>
    rw [List.cons_append,
      show containsSub (c :: t) (c :: (t ++ rest)) =
        ((c :: t).isPrefixOf (c :: (t ++ rest)) ||
          containsSub (c :: t) (t ++ rest)) from rfl,
      Bool.or_eq_true]
    left
    rw [List.isPrefixOf_iff_prefix]
    exact ⟨rest, rfl⟩

/-- The counterexample to C6 as stated: a starting `PATH` of
`/foo/usr/sbin:/sbinx` already contains `/usr/sbin:/sbin` as a substring, so
it is left unchanged, yet neither `/usr/sbin` nor `/sbin` is an entry of it. -/
theorem ensure_path_not_entry :
    _ensure_path_prefix' (some "/foo/usr/sbin:/sbinx") =
        "/foo/usr/sbin:/sbinx" ∧
      "/usr/sbin" ∉ pathEntries (_ensure_path_prefix'
        (some "/foo/usr/sbin:/sbinx")) ∧
      "/sbin" ∉ pathEntries (_ensure_path_prefix'
        (some "/foo/usr/sbin:/sbinx")) := by
  refine ⟨by decide, by decide, by decide⟩

/-- C6 amended: for every starting environment the spawned `PATH` contains
the string `/usr/sbin:/sbin` as a substring, and whenever the original
`PATH` did not already contain that substring, `/usr/sbin` and `/sbin` are
genuinely entries of the augmented `PATH` (the substring test means an
original `PATH` such as `/foo/usr/sbin:/sbinx` is kept as is without either
directory being an entry). -/
theorem ensure_path_spec (pathVar : Option String) :
    strContains (_ensure_path_prefix' pathVar) "/usr/sbin:/sbin" = true ∧
      (strContains (pathVar.getD "") "/usr/sbin:/sbin" = false →
        "/usr/sbin" ∈ pathEntries (_ensure_path_prefix' pathVar) ∧
          "/sbin" ∈ pathEntries (_ensure_path_prefix' pathVar)) := by
  by_cases hc : strContains (pathVar.getD "") "/usr/sbin:/sbin" = true
  · have hval : _ensure_path_prefix' pathVar = pathVar.getD "" := by
      unfold _ensure_path_prefix'
      rw [if_pos hc]
    rw [hval]
    exact ⟨hc, fun h => absurd hc (by rw [h]; simp)⟩
  · rw [Bool.not_eq_true] at hc
    by_cases hemp : (pathVar.getD "").data.isEmpty = true
    · have hval : _ensure_path_prefix' pathVar = "/usr/sbin:/sbin" := by
        unfold _ensure_path_prefix'
        rw [if_neg (by rw [hc]; simp), if_pos hemp]
      rw [hval]
      exact ⟨by decide, fun _ => ⟨by decide, by decide⟩⟩
    · have hval : _ensure_path_prefix' pathVar =
          "/usr/sbin:/sbin" ++ ":" ++ pathVar.getD "" := by
        unfold _ensure_path_prefix'
        rw [if_neg (by rw [hc]; simp), if_neg hemp]
      rw [hval]
      constructor
      · have hdata : ("/usr/sbin:/sbin" ++ ":" ++ pathVar.getD "").data =
            "/usr/sbin:/sbin".data ++ (':' :: (pathVar.getD "").data) := rfl
        unfold strContains
        rw [hdata]
        exact containsSub_append_left _ _ (by decide)
      · intro _
        have hdata2 : ("/usr/sbin:/sbin" ++ ":" ++ pathVar.getD "").data =
            "/usr/sbin".data ++ ':' ::
              ("/sbin".data ++ ':' :: (pathVar.getD "").data) := rfl
        unfold pathEntries
        rw [hdata2, splitColon_append _ (by decide) _ [],
          splitColon_append _ (by decide) _ []]
        constructor
        · exact List.mem_cons_self _ _
        · exact List.mem_cons_of_mem _ (List.mem_cons_self _ _)

/-- Witness for the amended C6 at a concrete input: a `PATH` of `/usr/bin`
gets `/usr/sbin` and `/sbin` prepended as entries. -/
theorem ensure_path_spec_witness :
    "/usr/sbin" ∈ pathEntries (_ensure_path_prefix' (some "/usr/bin")) ∧
      "/sbin" ∈ pathEntries (_ensure_path_prefix' (some "/usr/bin")) :=
  (ensure_path_spec (some "/usr/bin")).2 (by decide)

/-! ### `run_command` (C4) -/

/-- Parameter bytes of a CSI sequence (0x30 to 0x3f). -/
def isCSIParamCh (c : Char) : Bool := 0x30 ≤ c.toNat && c.toNat ≤ 0x3f

/-- Intermediate bytes of a CSI sequence (0x20 to 0x2f). -/
def isCSIInterCh (c : Char) : Bool := 0x20 ≤ c.toNat && c.toNat ≤ 0x2f

/-- Final byte of a CSI sequence (0x40 to 0x7e). -/
def isCSIFinalCh (c : Char) : Bool := 0x40 ≤ c.toNat && c.toNat ≤ 0x7e

/-- Second byte of a two-byte escape sequence (0x40 to 0x5f). -/
def isTwoByteCh (c : Char) : Bool := 0x40 ≤ c.toNat && c.toNat ≤ 0x5f

/-- After an escape and an opening bracket: greedily consume parameter then
intermediate bytes and require a final byte; the three classes are disjoint,
so the greedy match of the CSI alternative of the regex is deterministic. -/
def tryCSI : List Char → Option (List Char)
  | [] => none
  | c :: r =>
    if c == '[' then
      match (r.dropWhile isCSIParamCh).dropWhile isCSIInterCh with
      | c2 :: r3 => if isCSIFinalCh c2 then some r3 else none
      | [] => none
    else none

/-- Body scan of the OSC alternative of the regex (non-BEL characters
followed by BEL or by an escaped backslash): the greedy body runs to the
first BEL if there is one, otherwise to the last escape-backslash pair;
`sawEsc` records that the previous body character was an escape. -/
def oscScan : List Char → Bool → Option (List Char)
  | [], _ => none
  | c :: rest, sawEsc =>
    if c == '\x07' then some rest
    else if sawEsc && c == '\\' then
      match oscScan rest false with
      | some r => some r
      | none => some rest
    else oscScan rest (c == '\x1b')

def tryOSC : List Char → Option (List Char)
  | [] => none
  | c :: r => if c == ']' then oscScan r false else none

def try2Byte : List Char → Option (List Char)
  | [] => none
  | c :: r => if isTwoByteCh c then some r else none

/-- One attempt of `ANSI_ESCAPE_RE` just after an escape character, trying
the regex alternatives in order and returning the rest of the input after
the match. -/
def ansiMatch (r : List Char) : Option (List Char) :=
  match tryCSI r with
  | some r' => some r'
  | none =>
    match tryOSC r with
    | some r' => some r'
    | none => try2Byte r

theorem oscScan_length (r : List Char) :
    ∀ b r', oscScan r b = some r' → r'.length ≤ r.length := by
  induction r with
  | nil => intro b r' h; cases h
  | cons c rest ih =>
    intro b r' h
    unfold oscScan at h
    split_ifs at h with h1 h2
    · rw [Option.some.injEq] at h
      subst h
      simp
    · rcases hm : oscScan rest false with _ | r2
      · rw [hm] at h
        simp only [Option.some.injEq] at h
        subst h
        simp
      · rw [hm] at h
        simp only [Option.some.injEq] at h
        subst h
        have := ih false r2 hm
        simp only [List.length_cons]
        omega
    · have := ih (c == '\x1b') r' h
      simp only [List.length_cons]
      omega

theorem tryCSI_cons (c : Char) (r : List Char) :
    tryCSI (c :: r) =
      if c == '[' then
        match (r.dropWhile isCSIParamCh).dropWhile isCSIInterCh with
        | c2 :: r3 => if isCSIFinalCh c2 then some r3 else none
        | [] => none
      else none := rfl

theorem tryOSC_cons (c : Char) (r : List Char) :
    tryOSC (c :: r) = if c == ']' then oscScan r false else none := rfl

theorem try2Byte_cons (c : Char) (r : List Char) :
    try2Byte (c :: r) = if isTwoByteCh c then some r else none := rfl

theorem tryCSI_length (r r' : List Char) (h : tryCSI r = some r') :
    r'.length < r.length := by
  cases r with
  | nil => cases h
  | cons c r0 =>
    rw [tryCSI_cons] at h
    split_ifs at h with hc
    rcases hsplit : (r0.dropWhile isCSIParamCh).dropWhile isCSIInterCh
      with _ | ⟨c2, r3⟩
    · simp only [hsplit] at h
      cases h
    · simp only [hsplit] at h
      split_ifs at h
      rw [Option.some.injEq] at h
      subst h
      have h1 : (c2 :: r3).length ≤ (r0.dropWhile isCSIParamCh).length := by
        rw [← hsplit]
        exact (List.dropWhile_sublist _).length_le
      have h2 : (r0.dropWhile isCSIParamCh).length ≤ r0.length :=
        (List.dropWhile_sublist _).length_le
      simp only [List.length_cons] at h1 ⊢
      omega

theorem ansiMatch_length (r r' : List Char) (h : ansiMatch r = some r') :
    r'.length < r.length := by
  rcases h1 : tryCSI r with _ | r1
  · rcases h2 : tryOSC r with _ | r2
    · have hr : ansiMatch r = try2Byte r := by
        unfold ansiMatch
        rw [h1, h2]
      rw [hr] at h
      cases r with
      | nil => cases h
      | cons c r0 =>
        rw [try2Byte_cons] at h
        split_ifs at h
        rw [Option.some.injEq] at h
        subst h
        simp
    · have hr : ansiMatch r = some r2 := by
        unfold ansiMatch
        rw [h1, h2]
      rw [hr, Option.some.injEq] at h
      subst h
      cases r with
      | nil => cases h2
      | cons c r0 =>
        rw [tryOSC_cons] at h2
        split_ifs at h2
        have := oscScan_length r0 false _ h2
        simp only [List.length_cons]
        omega
  · have hr : ansiMatch r = some r1 := by
      unfold ansiMatch
      rw [h1]
    rw [hr, Option.some.injEq] at h
    subst h
    exact tryCSI_length r r1 h1

/-- `_strip_ansi` of `mac_maintenance.py`: remove every leftmost
non-overlapping match of `ANSI_ESCAPE_RE` (CSI sequences, OSC sequences,
two-byte escapes). -/
def _strip_ansi : List Char → List Char
  | [] => []
  | c :: rest =>
    if c == '\x1b' then
      match h : ansiMatch rest with
      | some rest' => _strip_ansi rest'
      | none => c :: _strip_ansi rest
    else c :: _strip_ansi rest
termination_by cs => cs.length
decreasing_by
  all_goals simp only [List.length_cons]
  · have := ansiMatch_length _ _ (by assumption)
    omega
  · omega
  · omega

/-- The outcome of one `subprocess.run` call as observed by `run_command`:
completion with an exit code and both streams, a timeout with the partial
streams the runtime captured (possibly absent), or any other exception with
its type name and message. -/
inductive SpawnOutcome where
  | completed (returncode : Int) (stdout stderr : String) (duration : Nat)
  | timedOut (partial_stdout partial_stderr : Option String) (duration : Nat)
  | failed (exc_type exc_msg : String) (duration : Nat)

/-- `run_command` of `mac_maintenance.py` (lines 457-532), with the
subprocess outcome passed explicitly: skip short-circuits, a completed
process has both streams stripped of ANSI sequences, truncated and marked,
a timeout preserves partial output and appends the timeout marker, and any
other failure produces the `[exception]` stderr. -/
def run_command (title command : String) (timeout_s max_chars max_lines : Nat)
    (skip_reason : Option String) (outcome : SpawnOutcome) : CommandResult :=
  if truthyOptStr skip_reason then
    { title := title, command := command, duration_s := 0,
      returncode := none, stdout := "Skipped: " ++ skip_reason.getD "",
      stderr := "", skipped_reason := skip_reason }
  else
    match outcome with
    | .completed rc out err dur =>
      let o := _truncate_text (_strip_ansi out.data) max_chars max_lines
      let e := _truncate_text (_strip_ansi err.data) max_chars max_lines
      let o2 := if o.2 then o.1 ++ "\n\n[output truncated]".data else o.1
      let e2 := if e.2 then e.1 ++ "\n\n[stderr truncated]".data else e.1
      { title := title, command := command, duration_s := dur,
        returncode := some rc, stdout := ⟨o2⟩, stderr := ⟨e2⟩ }
    | .timedOut pout perr dur =>
      let o := _truncate_text (_strip_ansi (pout.getD "").data)
        max_chars max_lines
      let e := _truncate_text (_strip_ansi (perr.getD "").data)
        max_chars max_lines
      let o2 := if o.1.isEmpty then "[command timed out]".data
                else o.1 ++ "\n\n[command timed out]".data
      let e2 := if e.1.isEmpty then e.1
                else e.1 ++ "\n\n[command timed out]".data
      { title := title, command := command, duration_s := dur,
        returncode := none, stdout := ⟨o2⟩, stderr := ⟨e2⟩ }
    | .failed ty msg dur =>
      { title := title, command := command, duration_s := dur,
        returncode := none, stdout := "",
        stderr := "[exception] " ++ ty ++ ": " ++ msg }

/-- C4: `run_command` is total over every input and every observable
subprocess outcome — it always hands back a fully formed `CommandResult`
carrying its title and command — and on any launch or execution failure
other than a timeout the result has exit code `none`, empty stdout, and a
stderr of exactly the error type and message prefixed by `[exception]`. -/
theorem run_command_total_and_exception :
    (∀ (title command : String) (t mc ml : Nat) (sk : Option String)
        (oc : SpawnOutcome),
      (run_command title command t mc ml sk oc).title = title ∧
        (run_command title command t mc ml sk oc).command = command) ∧
      (∀ (title command : String) (t mc ml : Nat) (ty msg : String)
          (dur : Nat),
        run_command title command t mc ml none
            (SpawnOutcome.failed ty msg dur) =
          { title := title, command := command, duration_s := dur,
            returncode := none, stdout := "",
            stderr := "[exception] " ++ ty ++ ": " ++ msg }) := by
  constructor
  · intro title command t mc ml sk oc
    unfold run_command
    split_ifs
    · exact ⟨rfl, rfl⟩
    · cases oc <;> exact ⟨rfl, rfl⟩
  · intro title command t mc ml ty msg dur
    rfl

/-! ### `validate_home_path` (C2) -/

/-- `validate_home_path` of `mac_maintenance.py` (lines 1353-1358).  Path
resolution (`expanduser().resolve()`) is modelled as the identity on
already-resolved absolute paths, and `home` is the resolved home directory;
the acceptance test of the code is a plain string-prefix test.  Raising
`ValueError` is modelled by `Except.error`. -/
def validate_home_path (home path label : String) : Except String String :=
  if strStartsWith path home then Except.ok path
  else Except.error (label ++ " must be within " ++ home)

/-- A resolved path lies under a directory when it equals it or continues
it past a path separator — the meaning of "resolves under the home
directory". -/
def underHome (home p : String) : Prop :=
  p = home ∨ strStartsWith p (home ++ "/") = true

/-- C2 fails on the code: with home `/Users/jpaul`, the sibling directory
`/Users/jpaulx` resolves outside the home directory yet is accepted,
because the code tests `str(resolved).startswith(str(home))` rather than
path containment; `/etc` is rejected and paths under home are accepted as
the claim states. -/
theorem validate_home_path_prefix_bug :
    validate_home_path "/Users/jpaul" "/Users/jpaulx" "archive-dir" =
        Except.ok "/Users/jpaulx" ∧
      ¬ underHome "/Users/jpaul" "/Users/jpaulx" ∧
      validate_home_path "/Users/jpaul" "/etc" "archive-dir" =
        Except.error "archive-dir must be within /Users/jpaul" ∧
      validate_home_path "/Users/jpaul" "/Users/jpaul/Documents"
          "archive-dir" = Except.ok "/Users/jpaul/Documents" := by
  refine ⟨rfl, ?_, rfl, rfl⟩
  intro hu
  rcases hu with hu | hu
  · exact absurd hu (by decide)
  · exact absurd hu (by decide)

/-! ### `task_find_orphans` (C7) -/

/-- Python string `<=`: lexicographic comparison by code point. -/
def charListLe : List Char → List Char → Bool
  | [], _ => true
  | _ :: _, [] => false
  | a :: s, b :: t =>
    if a.toNat < b.toNat then true
    else if b.toNat < a.toNat then false
    else charListLe s t

/-- Python `a <= b` on strings. -/
def pyStrLe (a b : String) : Bool := charListLe a.data b.data

def strInsert (x : String) : List String → List String
  | [] => [x]
  | y :: ys => if pyStrLe x y then x :: y :: ys else y :: strInsert x ys

/-- Python `sorted` on strings: a stable sort by the lexicographic order,
realised as insertion sort. -/
def pySorted : List String → List String
  | [] => []
  | x :: xs => strInsert x (pySorted xs)

/-- The lowered stems of the `.app` entries of the applications directory,
as collected by `task_find_orphans`. -/
def installed_app_stems (appEntries : List String) : List String :=
  appEntries.filterMap (fun n =>
    if strEndsWith n ".app" then
      some (strLower ⟨n.data.take (n.data.length - 4)⟩)
    else none)

/-- The orphan list of `task_find_orphans` (lines 1455-1496): sort the
support folder names, drop those matching the skip pattern, and keep those
matching no installed application by case-insensitive substring containment
in either direction. -/
def find_orphans (appEntries supportDirs : List String)
    (skip : String → Bool) : List String :=
  (pySorted supportDirs).filter (fun d =>
    !skip d && !((installed_app_stems appEntries).any (fun app =>
      strContains app (strLower d) || strContains (strLower d) app)))

theorem mem_strInsert (x y : String) (l : List String) :
    y ∈ strInsert x l ↔ y = x ∨ y ∈ l := by
  induction l with
  | nil => simp [strInsert]
  | cons z zs ih =>
    unfold strInsert
    split_ifs with hle
    · constructor
      · intro hm
        rw [List.mem_cons] at hm
        exact hm
      · intro hm
        rw [List.mem_cons]
        exact hm
    · rw [List.mem_cons, ih, List.mem_cons]
      tauto

theorem mem_pySorted (d : String) (l : List String) :
    d ∈ pySorted l ↔ d ∈ l := by
  induction l with
  | nil => simp [pySorted]
  | cons x xs ih =>
    unfold pySorted
    rw [mem_strInsert, ih, List.mem_cons]

/-- C7: with installed application `Foo` and support folders `Foo Helper`
and `Bar` and an empty skip pattern, `Bar` is reported as orphaned and
`Foo Helper` is not; in general a folder present in the support list is
non-orphaned exactly when some installed app stem contains its lowered name
as a substring or is contained in it. -/
theorem find_orphans_spec :
    ("Bar" ∈ find_orphans ["Foo.app"] ["Foo Helper", "Bar"]
        (fun _ => false) ∧
      "Foo Helper" ∉ find_orphans ["Foo.app"] ["Foo Helper", "Bar"]
        (fun _ => false)) ∧
      ∀ (appEntries supportDirs : List String) (d : String),
        d ∈ supportDirs →
          (d ∉ find_orphans appEntries supportDirs (fun _ => false) ↔
            ∃ app ∈ installed_app_stems appEntries,
              strContains app (strLower d) = true ∨
                strContains (strLower d) app = true) := by
  constructor
  · exact ⟨by decide, by decide⟩
  · intro appEntries supportDirs d hd
    unfold find_orphans
    rw [show (¬ d ∈ (pySorted supportDirs).filter (fun d =>
        !(fun _ : String => false) d &&
          !((installed_app_stems appEntries).any (fun app =>
            strContains app (strLower d) || strContains (strLower d) app))))
        ↔ _ from Iff.rfl]
    rw [List.mem_filter, mem_pySorted]
    simp only [Bool.not_eq_true', Bool.and_eq_true, Bool.not_eq_false]
    constructor
    · intro hn
      by_contra hno
      apply hn
      refine ⟨hd, trivial, ?_⟩
      rw [Bool.eq_false_iff]
      intro hany
      rw [List.any_eq_true] at hany
      obtain ⟨app, happ, hcond⟩ := hany
      rw [Bool.or_eq_true] at hcond
      exact hno ⟨app, happ, hcond⟩
    · rintro ⟨app, happ, hcond⟩ ⟨_, _, hnoany⟩
      rw [Bool.eq_false_iff] at hnoany
      apply hnoany
      rw [List.any_eq_true]
      exact ⟨app, happ, by rwa [Bool.or_eq_true]⟩

/-- Witness for C7 at the concrete scenario: `Foo Helper` is not orphaned
because its lowered name contains the installed stem `foo`. -/
theorem find_orphans_spec_witness :
    "Foo Helper" ∉ find_orphans ["Foo.app"] ["Foo Helper", "Bar"]
      (fun _ => false) :=
  (find_orphans_spec.2 ["Foo.app"] ["Foo Helper", "Bar"] "Foo Helper"
    (by decide)).2 ⟨"foo", by decide, Or.inr (by decide)⟩

/-! ### Date-string comparison in `task_cleanup_archives` (C9) -/

theorem isDigit_toNat (c : Char) :
    c.isDigit = true ↔ 48 ≤ c.toNat ∧ c.toNat ≤ 57 := by
  simp only [Char.isDigit, Bool.and_eq_true, decide_eq_true_eq]
  constructor
  · rintro ⟨h1, h2⟩
    exact ⟨by simpa using h1, by simpa using h2⟩
  · rintro ⟨h1, h2⟩
    exact ⟨by simpa using h1, by simpa using h2⟩

/-- The shape `[0-9]{4}-[0-9]{2}-[0-9]{2}` of the date captured by the
archive-name pattern of `task_cleanup_archives`. -/
def isDateShape : List Char → Bool
  | [a, b, c, d, e, f, g, p, i, j] =>
    a.isDigit && b.isDigit && c.isDigit && d.isDigit && e == '-' &&
      f.isDigit && g.isDigit && p == '-' && i.isDigit && j.isDigit
  | _ => false

def digitVal (c : Char) : Nat := c.toNat - 48

/-- The (year, month, day) triple read off a date-shaped string. -/
def dateTriple : List Char → Nat × Nat × Nat
  | [a, b, c, d, _, f, g, _, i, j] =>
    (((digitVal a * 10 + digitVal b) * 10 + digitVal c) * 10 + digitVal d,
      digitVal f * 10 + digitVal g, digitVal i * 10 + digitVal j)
  | _ => (0, 0, 0)

/-- Chronological order on (year, month, day) triples. -/
def chronoLe : Nat × Nat × Nat → Nat × Nat × Nat → Prop
  | (y, m, d), (y', m', d') =>
    y < y' ∨ (y = y' ∧ (m < m' ∨ (m = m' ∧ d ≤ d')))

theorem charListLe_nil (t : List Char) : charListLe [] t = true := by
  cases t <;> rfl

theorem charListLe_cons (a b : Char) (s t : List Char) :
    charListLe (a :: s) (b :: t) =
      if a.toNat < b.toNat then true
      else if b.toNat < a.toNat then false
      else charListLe s t := rfl

theorem charListLe_same (x : Char) (rest rest' : List Char) :
    charListLe (x :: rest) (x :: rest') = charListLe rest rest' := by
  rw [charListLe_cons, if_neg (Nat.lt_irrefl _), if_neg (Nat.lt_irrefl _)]

theorem blockLe2 (x y x' y' : Char) (rest rest' : List Char)
    (hx : 48 ≤ x.toNat ∧ x.toNat ≤ 57) (hy : 48 ≤ y.toNat ∧ y.toNat ≤ 57)
    (hx' : 48 ≤ x'.toNat ∧ x'.toNat ≤ 57)
    (hy' : 48 ≤ y'.toNat ∧ y'.toNat ≤ 57) :
    charListLe (x :: y :: rest) (x' :: y' :: rest') =
      (decide (digitVal x * 10 + digitVal y <
          digitVal x' * 10 + digitVal y') ||
        (decide (digitVal x * 10 + digitVal y =
          digitVal x' * 10 + digitVal y') && charListLe rest rest')) := by
  rw [charListLe_cons, charListLe_cons]
  simp only [digitVal]
  split_ifs with h1 h2 h3 h4
  · rw [decide_eq_true (by omega :
      (x.toNat - 48) * 10 + (y.toNat - 48) <
        (x'.toNat - 48) * 10 + (y'.toNat - 48))]
    simp
  · rw [decide_eq_false (by omega :
      ¬ ((x.toNat - 48) * 10 + (y.toNat - 48) <
        (x'.toNat - 48) * 10 + (y'.toNat - 48))),
      decide_eq_false (by omega :
      ¬ ((x.toNat - 48) * 10 + (y.toNat - 48) =
        (x'.toNat - 48) * 10 + (y'.toNat - 48)))]
    simp
  · rw [decide_eq_true (by omega :
      (x.toNat - 48) * 10 + (y.toNat - 48) <
        (x'.toNat - 48) * 10 + (y'.toNat - 48))]
    simp
  · rw [decide_eq_false (by omega :
      ¬ ((x.toNat - 48) * 10 + (y.toNat - 48) <
        (x'.toNat - 48) * 10 + (y'.toNat - 48))),
      decide_eq_false (by omega :
      ¬ ((x.toNat - 48) * 10 + (y.toNat - 48) =
        (x'.toNat - 48) * 10 + (y'.toNat - 48)))]
    simp
  · rw [decide_eq_false (by omega :
      ¬ ((x.toNat - 48) * 10 + (y.toNat - 48) <
        (x'.toNat - 48) * 10 + (y'.toNat - 48))),
      decide_eq_true (by omega :
      (x.toNat - 48) * 10 + (y.toNat - 48) =
        (x'.toNat - 48) * 10 + (y'.toNat - 48))]
    simp

theorem dateTriple_eq (a b c d e f g p i j : Char) :
    dateTriple [a, b, c, d, e, f, g, p, i, j] =
      (((digitVal a * 10 + digitVal b) * 10 + digitVal c) * 10 + digitVal d,
        digitVal f * 10 + digitVal g, digitVal i * 10 + digitVal j) := rfl

/-- C9: on zero-padded `YYYY-MM-DD` strings, the lexicographic string
comparison used by `task_cleanup_archives` (`delete_date <= today`, Python
string order, modelled by `charListLe`) coincides with chronological
comparison of the (year, month, day) triples. -/
theorem date_lex_agrees_with_chronological (s t : List Char)
    (hs : isDateShape s = true) (ht : isDateShape t = true) :
    charListLe s t = true ↔ chronoLe (dateTriple s) (dateTriple t) := by
  rcases s with _ | ⟨a, _ | ⟨b, _ | ⟨c, _ | ⟨d, _ | ⟨e, _ | ⟨f, _ | ⟨g,
    _ | ⟨p, _ | ⟨i, _ | ⟨j, _ | ⟨x, rest⟩⟩⟩⟩⟩⟩⟩⟩⟩⟩⟩
  all_goals try simp only [isDateShape] at hs
  all_goals try exact absurd hs Bool.false_ne_true
  rcases t with _ | ⟨a', _ | ⟨b', _ | ⟨c', _ | ⟨d', _ | ⟨e', _ | ⟨f',
    _ | ⟨g', _ | ⟨p', _ | ⟨i', _ | ⟨j', _ | ⟨x', rest'⟩⟩⟩⟩⟩⟩⟩⟩⟩⟩⟩
  all_goals try simp only [isDateShape] at ht
  all_goals try exact absurd ht Bool.false_ne_true
  simp only [Bool.and_eq_true, beq_iff_eq] at hs ht
  obtain ⟨⟨⟨⟨⟨⟨⟨⟨⟨ha, hb⟩, hc⟩, hd⟩, he⟩, hf⟩, hg⟩, hp⟩, hi⟩, hj⟩ := hs
  obtain ⟨⟨⟨⟨⟨⟨⟨⟨⟨ha', hb'⟩, hc'⟩, hd'⟩, he'⟩, hf'⟩, hg'⟩, hp'⟩, hi'⟩, hj'⟩
    := ht
  subst he
  subst hp
  subst he'
  subst hp'
  rw [isDigit_toNat] at ha hb hc hd hf hg hi hj
  rw [isDigit_toNat] at ha' hb' hc' hd' hf' hg' hi' hj'
  rw [dateTriple_eq, dateTriple_eq,
    blockLe2 a b a' b' _ _ ha hb ha' hb',
    blockLe2 c d c' d' _ _ hc hd hc' hd',
    charListLe_same,
    blockLe2 f g f' g' _ _ hf hg hf' hg',
    charListLe_same,
    blockLe2 i j i' j' _ _ hi hj hi' hj',
    charListLe_nil]
  simp only [chronoLe, digitVal, Bool.or_eq_true, Bool.and_eq_true,
    decide_eq_true_eq, Bool.and_true]
  omega

/-- Witness for C9 at two concrete date strings. -/
theorem date_lex_witness :
    charListLe "2024-05-17".data "2025-01-01".data = true ↔
      chronoLe (dateTriple "2024-05-17".data)
        (dateTriple "2025-01-01".data) :=
  date_lex_agrees_with_chronological "2024-05-17".data "2025-01-01".data
    (by decide) (by decide)

/-! ### `main` dispatch (C8) -/

def MODE_REPORT : String := "report"
def MODE_DRY_RUN : String := "dry-run"
def MODE_APPLY : String := "apply"

def TASK_REPORT : String := "report-html"
def TASK_BREW : String := "brew-maintenance"
def TASK_FIND_ORPHANS : String := "find-orphans"
def TASK_ARCHIVE_ORPHANS : String := "archive-orphans"
def TASK_CLEANUP_ARCHIVES : String := "cleanup-archives"
def TASK_CHROME : String := "chrome-cleanup"
def TASK_COPY : String := "copy-speed-test"

/-- The fixed order in which `main` tries the tasks. -/
def task_order : List String :=
  [TASK_REPORT, TASK_BREW, TASK_FIND_ORPHANS, TASK_ARCHIVE_ORPHANS,
   TASK_CLEANUP_ARCHIVES, TASK_CHROME, TASK_COPY]

/-- The dispatch skeleton of `main` (lines 1838-1910): with no `--task`,
report mode defaults to the `report-html` task and every other mode logs a
line and returns exit code 2; otherwise each selected task runs once, in
`main`'s fixed order, and `main` returns 0 on completion.  The result is
(exit code, tasks run, log lines). -/
def main_dispatch (mode : String) (cliTasks : List String) :
    Nat × List String × List String :=
  if cliTasks.isEmpty then
    if mode = MODE_REPORT then (0, [TASK_REPORT], [])
    else (2, [], ["No tasks selected. Use --task to choose what to run."])
  else (0, task_order.filter (fun t => cliTasks.contains t), [])

/-- C8: with no `--task`, report mode runs `report-html` and returns 0,
while dry-run and apply modes emit the log line and return exit code 2; in
every other case `main` returns 0 on completion. -/
theorem main_default_and_exit_codes :
    main_dispatch MODE_REPORT [] = (0, [TASK_REPORT], []) ∧
      (main_dispatch MODE_DRY_RUN []).1 = 2 ∧
      (main_dispatch MODE_DRY_RUN []).2.2 =
        ["No tasks selected. Use --task to choose what to run."] ∧
      (main_dispatch MODE_APPLY []).1 = 2 ∧
      (main_dispatch MODE_APPLY []).2.2 =
        ["No tasks selected. Use --task to choose what to run."] ∧
      ∀ (mode : String) (tasks : List String),
        tasks ≠ [] → (main_dispatch mode tasks).1 = 0 := by
  refine ⟨rfl, rfl, rfl, rfl, rfl, ?_⟩
  intro mode tasks h
  unfold main_dispatch
  rw [if_neg (by simpa [List.isEmpty_iff] using h)]

/-- Witness for C8 at a concrete selected task. -/
theorem main_dispatch_witness :
    (main_dispatch MODE_APPLY [TASK_BREW]).1 = 0 :=
  main_default_and_exit_codes.2.2.2.2.2 MODE_APPLY [TASK_BREW] (by decide)

/-! ### Maintenance tasks and dry-run effects (C3) -/

/-- A snapshot of the filesystem regions the maintenance tasks touch: the
existing directories (full paths) and the existing files as (directory,
name) pairs. -/
structure FS where
  dirs : List String
  files : List (String × String)
deriving DecidableEq, Repr

/-- The subprocess invocations the maintenance tasks can make. -/
inductive Cmd where
  | du (path : String)
  | pgrep (pat : String)
  | osascriptQuit (app : String)
  | pkill (sig pat : String)
  | zip (archive folder : String)
  | rsync (src dst : String)
  | brew (args : List String)
deriving DecidableEq, Repr

/-- The observable outcome of one task run: the final filesystem, the log
lines printed, the subprocess invocations made, and the `ValueError` raised
by path validation, when any. -/
structure TaskOut where
  fs : FS
  log : List String
  cmds : List Cmd
  err : Option String
deriving Repr

/-- `mkdir(parents=True, exist_ok=True)` on the directory model. -/
def addDir (fs : FS) (d : String) : FS :=
  if fs.dirs.contains d then fs else ⟨d :: fs.dirs, fs.files⟩

def removeFile (fs : FS) (dir name : String) : FS :=
  ⟨fs.dirs, fs.files.filter (fun f => !(f.1 == dir && f.2 == name))⟩

/-- `human_size_kb` of the source renders kb as gigabytes with two decimal
places; the float formatting is modelled by fixed-point division (no claim
depends on the rendered digits). -/
def human_size_kb (kb : Nat) : String :=
  let centi := kb * 100 / (1024 * 1024)
  toString (centi / 100) ++ "." ++
    (if centi % 100 < 10 then "0" else "") ++ toString (centi % 100) ++ " GB"

/-- The `size_str` idiom `human_size_kb(size) if size else "unknown"`:
`None` and `0` are both falsy. -/
def size_str_of (size : Option Nat) : String :=
  match size with
  | some kb => if kb == 0 then "unknown" else human_size_kb kb
  | none => "unknown"

/-- The date captured by the archive-name pattern of
`task_cleanup_archives`: the name must end in `.zip` preceded by ten
date-shaped characters preceded by `_delete_`, exactly the anchored regex
(which also implies the glob pre-filter). -/
def parse_archive_date (n : String) : Option String :=
  let cs := n.data
  if ".zip".data.isSuffixOf cs then
    let stem := cs.take (cs.length - 4)
    let d := stem.drop (stem.length - 10)
    let pre := stem.take (stem.length - 10)
    if isDateShape d && "_delete_".data.isSuffixOf pre then some ⟨d⟩
    else none
  else none

/-- The deletion loop of `task_cleanup_archives`: for each eligible
archive, measure it with `du`, then delete it (apply) or log `would
delete` (any other mode). -/
def cleanup_loop (archiveDir : String) (duo : String → Option Nat)
    (mode : String) : List String → FS → FS × List String × List Cmd
  | [], fs => (fs, [], [])
  | n :: rest, fs =>
    let p := archiveDir ++ "/" ++ n
    let sstr := size_str_of (duo p)
    let step :=
      if mode == MODE_APPLY then
        (removeFile fs archiveDir n, "deleted: " ++ n ++ " (" ++ sstr ++ ")")
      else (fs, "would delete: " ++ n ++ " (" ++ sstr ++ ")")
    let r := cleanup_loop archiveDir duo mode rest step.1
    (r.1, step.2 :: r.2.1, Cmd.du p :: r.2.2)

/-- `task_cleanup_archives` of `mac_maintenance.py` (lines 1381-1414), with
the current date and the `du` measurements passed explicitly. -/
def task_cleanup_archives (home archive_dir today : String)
    (duo : String → Option Nat) (mode : String) (fs : FS) : TaskOut :=
  match validate_home_path home archive_dir "archive-dir" with
  | Except.error e => ⟨fs, [], [], some e⟩
  | Except.ok archiveDir =>
    if fs.dirs.contains archiveDir = false then
      ⟨fs, ["cleanup-archives: directory not found: " ++ archiveDir], [],
        none⟩
    else
      let names := (fs.files.filter (fun f => f.1 == archiveDir)).map
        Prod.snd
      let candidates := names.filter (fun n =>
        match parse_archive_date n with
        | some d => pyStrLe d today
        | none => false)
      if candidates.isEmpty then
        ⟨fs, ["cleanup-archives: no archives eligible for deletion"], [],
          none⟩
      else
        let r := cleanup_loop archiveDir duo mode candidates fs
        ⟨r.1, ("cleanup-archives: " ++ toString candidates.length ++
          " archive(s) eligible for deletion") :: r.2.1, r.2.2, none⟩

/-- Python `folder.replace(" ", "_")`. -/
def replaceSpaces (s : String) : String :=
  ⟨s.data.map (fun c => if c == ' ' then '_' else c)⟩

/-- The folder loop of `task_archive_orphans`: skip missing folders, log
the intended archive in non-apply modes, and in apply mode zip the folder
and remove it when the zip succeeded. -/
def archive_loop (appSupport archiveDir delete_date : String)
    (zipOut : String → Int × String) (mode : String) :
    List String → FS → FS × List String × List Cmd
  | [], fs => (fs, [], [])
  | folder :: rest, fs =>
    let folder_path := appSupport ++ "/" ++ folder
    if fs.dirs.contains folder_path = false then
      let r := archive_loop appSupport archiveDir delete_date zipOut mode
        rest fs
      (r.1, ("skip (not found): " ++ folder) :: r.2.1, r.2.2)
    else
      let archive_name := replaceSpaces folder ++ "_delete_" ++
        delete_date ++ ".zip"
      let archive_path := archiveDir ++ "/" ++ archive_name
      if !(mode == MODE_APPLY) then
        let r := archive_loop appSupport archiveDir delete_date zipOut mode
          rest fs
        (r.1, ("would archive: " ++ folder ++ " -> " ++ archive_path) ::
          r.2.1, r.2.2)
      else
        let z := zipOut folder
        if !(z.1 == 0) then
          let r := archive_loop appSupport archiveDir delete_date zipOut
            mode rest fs
          (r.1, ("archiving: " ++ folder) ::
            ("zip failed for " ++ folder ++ ": " ++ z.2) :: r.2.1,
            Cmd.zip archive_path folder :: r.2.2)
        else
          let fs1 : FS :=
            ⟨fs.dirs.filter (fun d => !(d == folder_path ||
                strStartsWith d (folder_path ++ "/"))),
             fs.files.filter (fun f => !(f.1 == folder_path ||
                strStartsWith f.1 (folder_path ++ "/")))⟩
          let fs2 : FS := ⟨fs1.dirs, (archiveDir, archive_name) :: fs1.files⟩
          let r := archive_loop appSupport archiveDir delete_date zipOut
            mode rest fs2
          (r.1, ("archiving: " ++ folder) ::
            ("archived and removed: " ++ folder) :: r.2.1,
            Cmd.zip archive_path folder :: r.2.2)

/-- `task_archive_orphans` of `mac_maintenance.py` (lines 1417-1452), with
the computed deletion date and the zip outcomes passed explicitly.  Note
`ensure_dir` creates the archive directory before any mode check. -/
def task_archive_orphans (home app_support_dir archive_dir delete_date :
    String) (folders : List String) (zipOut : String → Int × String)
    (mode : String) (fs : FS) : TaskOut :=
  match validate_home_path home archive_dir "archive-dir" with
  | Except.error e => ⟨fs, [], [], some e⟩
  | Except.ok archiveDir =>
    let fs1 := addDir fs archiveDir
    let r := archive_loop app_support_dir archiveDir delete_date zipOut
      mode folders fs1
    ⟨r.1, ("archive-orphans: delete date set to " ++ delete_date) ::
      r.2.1, r.2.2, none⟩

/-- The per-profile cache subdirectories cleaned by `task_chrome_cleanup`. -/
def CHROME_CLEAN_DIRS : List String :=
  ["Service Worker", "IndexedDB", "File System", "Local Storage",
   "GPUCache", "WebStorage", "Application Cache", "Pepper Data",
   "Platform Notifications", "Session Storage"]

/-- The names of the immediate subdirectories of `p`. -/
def childDirs (fs : FS) (p : String) : List String :=
  fs.dirs.filterMap (fun d =>
    if strStartsWith d (p ++ "/") then
      let rest : String := ⟨d.data.drop (p.data.length + 1)⟩
      if rest.data.all (fun c => !(c == '/')) && !rest.data.isEmpty then
        some rest
      else none
    else none)

/-- `os.walk` deletion inside one cache directory: every file under it and
every subdirectory of it goes, the directory itself stays. -/
def emptyDirContents (fs : FS) (p : String) : FS :=
  ⟨fs.dirs.filter (fun d => !(strStartsWith d (p ++ "/"))),
   fs.files.filter (fun f =>
     !(f.1 == p || strStartsWith f.1 (p ++ "/")))⟩

/-- The cache loop over one profile: skip absent cache directories, clean
them in apply mode, log `would clean` otherwise. -/
def chrome_clean_profile (chromeDir profile : String) (mode : String) :
    List String → FS → FS × List String
  | [], fs => (fs, [])
  | name :: rest, fs =>
    let dir_path := chromeDir ++ "/" ++ profile ++ "/" ++ name
    if fs.dirs.contains dir_path = false then
      chrome_clean_profile chromeDir profile mode rest fs
    else if mode == MODE_APPLY then
      let fs1 := emptyDirContents fs dir_path
      let r := chrome_clean_profile chromeDir profile mode rest fs1
      (r.1, ("cleaned: " ++ profile ++ "/" ++ name) :: r.2)
    else
      let r := chrome_clean_profile chromeDir profile mode rest fs
      (r.1, ("would clean: " ++ profile ++ "/" ++ name) :: r.2)

def chrome_clean_loop (chromeDir : String) (mode : String) :
    List String → FS → FS × List String
  | [], fs => (fs, [])
  | profile :: rest, fs =>
    let r1 := chrome_clean_profile chromeDir profile mode CHROME_CLEAN_DIRS
      fs
    let r2 := chrome_clean_loop chromeDir mode rest r1.1
    (r2.1, r1.2 ++ r2.2)

/-- The size-report loop over the profiles (one `du` each). -/
def chrome_sizes_loop (chromeDir : String) (duo : String → Option Nat) :
    List String → List String × List Cmd
  | [] => ([], [])
  | profile :: rest =>
    let p := chromeDir ++ "/" ++ profile
    let r := chrome_sizes_loop chromeDir duo rest
    (("  " ++ profile ++ ": " ++ size_str_of (duo p)) :: r.1,
      Cmd.du p :: r.2)

/-- `task_chrome_cleanup` of `mac_maintenance.py` (lines 1662-1716), with
the running state of the browser and the `du` measurements passed
explicitly.  The escalating close sequence only happens in apply mode and
is summarised by its final outcome `closeOk`. -/
def task_chrome_cleanup (home chrome_dir : String) (running closeOk
    kill_chrome : Bool) (duo : String → Option Nat) (mode : String)
    (fs : FS) : TaskOut :=
  match validate_home_path home chrome_dir "chrome-dir" with
  | Except.error e => ⟨fs, [], [], some e⟩
  | Except.ok chromeDir =>
    if fs.dirs.contains chromeDir = false then
      ⟨fs, ["chrome-cleanup: directory not found: " ++ chromeDir], [],
        none⟩
    else
      let pg : List Cmd := [Cmd.pgrep "Google Chrome Beta"]
      if running && !kill_chrome then
        ⟨fs, ["chrome-cleanup: Chrome Beta is running. Use --kill-chrome " ++
          "to close it."], pg, none⟩
      else if running && !(mode == MODE_APPLY) then
        ⟨fs, ["chrome-cleanup: would close Chrome Beta"], pg, none⟩
      else if running && !closeOk then
        ⟨fs, ["chrome-cleanup: failed to close Chrome Beta"],
          pg ++ [Cmd.osascriptQuit "Google Chrome Beta",
            Cmd.pkill "TERM" "Google Chrome Beta",
            Cmd.pkill "KILL" "Google Chrome Beta"], none⟩
      else
        let closeCmds : List Cmd :=
          if running then
            pg ++ [Cmd.osascriptQuit "Google Chrome Beta"]
          else pg
        let profiles := (childDirs fs chromeDir).filter (fun n =>
          n == "Default" || strStartsWith n "Profile ")
        if profiles.isEmpty then
          ⟨fs, ["chrome-cleanup: no profiles found"], closeCmds, none⟩
        else
          let sizes := chrome_sizes_loop chromeDir duo profiles
          let cleaned := chrome_clean_loop chromeDir mode profiles fs
          ⟨cleaned.1,
            ("chrome-cleanup: found " ++ toString profiles.length ++
              " profile(s)") :: sizes.1 ++ cleaned.2,
            closeCmds ++ sizes.2, none⟩

def parentDir (p : String) : String :=
  ⟨((p.data.reverse.dropWhile (fun c => !(c == '/'))).drop 1).reverse⟩

def baseName (p : String) : String :=
  ⟨(p.data.reverse.takeWhile (fun c => !(c == '/'))).reverse⟩

def pathExists (fs : FS) (p : String) : Bool :=
  fs.dirs.contains p ||
    fs.files.any (fun f => (f.1 ++ "/" ++ f.2) == p)

/-- `task_copy_speed_test` of `mac_maintenance.py` (lines 1718-1756), with
the `du` measurement and the rsync exit code passed explicitly.  The
wall-clock duration and derived speed figure are summarised by an opaque
duration count. -/
def task_copy_speed_test (src dst : String) (duo : String → Option Nat)
    (rsyncRC : Int) (duration : Nat) (mode : String) (fs : FS) : TaskOut :=
  if pathExists fs src = false then
    ⟨fs, ["copy-speed-test: source not found: " ++ src], [], none⟩
  else if fs.dirs.contains (parentDir dst) = false then
    ⟨fs, ["copy-speed-test: destination parent missing: " ++
      parentDir dst], [], none⟩
  else
    let size_kb := duo src
    let sizeLog : List String :=
      match size_kb with
      | some kb => if kb == 0 then []
                   else ["copy-speed-test: source size " ++ human_size_kb kb]
      | none => []
    if !(mode == MODE_APPLY) then
      ⟨fs, sizeLog ++ ["copy-speed-test: would copy " ++ src ++ " -> " ++
        dst], [Cmd.du src], none⟩
    else
      if !(rsyncRC == 0) then
        ⟨fs, sizeLog ++ ["copy-speed-test: starting copy " ++ src ++
          " -> " ++ dst, "copy-speed-test: rsync failed with " ++
          toString rsyncRC], [Cmd.du src, Cmd.rsync src dst], none⟩
      else
        ⟨⟨fs.dirs, (parentDir dst, baseName dst) :: fs.files⟩,
          sizeLog ++ ["copy-speed-test: starting copy " ++ src ++ " -> " ++
            dst, "copy-speed-test: completed in " ++ toString duration ++
            "s"], [Cmd.du src, Cmd.rsync src dst], none⟩

/-- Python `" ".join`. -/
def joinSpace : List String → String
  | [] => ""
  | [x] => x
  | x :: xs => x ++ " " ++ joinSpace xs

/-- Python `", ".join`. -/
def joinComma : List String → String
  | [] => ""
  | [x] => x
  | x :: xs => x ++ ", " ++ joinComma xs

def isPySpace (c : Char) : Bool :=
  c == ' ' || c == '\t' || c == '\n' || c == '\x0b' || c == '\x0c' ||
    c == '\x0d'

/-- Python `s.strip()`. -/
def pyStrip (s : String) : String :=
  ⟨((s.data.dropWhile isPySpace).reverse.dropWhile isPySpace).reverse⟩

/-- The boolean action flags of `task_brew_maintenance`. -/
structure BrewFlags where
  do_update : Bool
  do_upgrade : Bool
  do_upgrade_cask : Bool
  do_autoremove : Bool
  do_cleanup : Bool
  do_doctor : Bool
  do_missing : Bool
  do_list : Bool
  do_cask_list : Bool
  do_untap : Bool
  do_fix_casks : Bool
deriving DecidableEq, Repr

def anyBrewFlag (f : BrewFlags) : Bool :=
  f.do_update || f.do_upgrade || f.do_upgrade_cask || f.do_autoremove ||
    f.do_cleanup || f.do_doctor || f.do_missing || f.do_list ||
    f.do_cask_list || f.do_untap || f.do_fix_casks

/-- The alternate cask names of the "fix missing cask apps"
reconciliation. -/
def mapCaskName (app : String) : String :=
  if app == "JupyterLab" then "jupyterlab-app"
  else if app == "LosslessCut" then "losslesscut"
  else if app == "RsyncUI" then "rsyncui"
  else strLower app

def writeFileAt (fs : FS) (p : String) : FS :=
  if fs.files.contains (parentDir p, baseName p) then fs
  else ⟨fs.dirs, (parentDir p, baseName p) :: fs.files⟩

/-- One `maybe_run` call of `task_brew_maintenance`: report mode skips
unless allowed, dry-run logs the intention, otherwise the brew subprocess
runs (with its echoed command line) and a failure is logged. -/
def maybe_run (brew_bin : String) (brewOut : List String → Int × String ×
    String) (mode : String) (desc : String) (args : List String)
    (allow_in_report : Bool) : List String × List Cmd :=
  if mode == MODE_REPORT && !allow_in_report then
    (["brew: report mode skip " ++ desc], [])
  else if mode == MODE_DRY_RUN then
    (["brew: would run " ++ desc ++ ": " ++ joinSpace args], [])
  else
    let r := brewOut args
    (("→ " ++ joinSpace (brew_bin :: args)) ::
      (if !(r.1 == 0) then ["brew: " ++ desc ++ " failed: " ++
        pyStrip r.2.2] else []),
      [Cmd.brew args])

/-- The `brew list` persisting block (`do_list`); the report and apply
branches of the source are identical. -/
def brew_list_block (brew_bin list_file : String)
    (brewOut : List String → Int × String × String) (mode : String)
    (fs : FS) : FS × List String × List Cmd :=
  if mode == MODE_DRY_RUN then
    (fs, ["brew: would write list to " ++ list_file], [])
  else
    let r := brewOut ["list"]
    if r.1 == 0 then
      (writeFileAt fs list_file,
        [("→ " ++ joinSpace [brew_bin, "list"]),
         "brew: wrote list to " ++ list_file], [Cmd.brew ["list"]])
    else
      (fs, [("→ " ++ joinSpace [brew_bin, "list"]),
        "brew: list failed: " ++ pyStrip r.2.2], [Cmd.brew ["list"]])

def brew_cask_list_block (brew_bin cask_file : String)
    (brewOut : List String → Int × String × String) (mode : String)
    (fs : FS) : FS × List String × List Cmd :=
  if mode == MODE_DRY_RUN then
    (fs, ["brew: would write cask list to " ++ cask_file], [])
  else
    let r := brewOut ["list", "--cask"]
    if r.1 == 0 then
      (writeFileAt fs cask_file,
        [("→ " ++ joinSpace [brew_bin, "list", "--cask"]),
         "brew: wrote cask list to " ++ cask_file],
        [Cmd.brew ["list", "--cask"]])
    else
      (fs, [("→ " ++ joinSpace [brew_bin, "list", "--cask"]),
        "brew: cask list failed: " ++ pyStrip r.2.2],
        [Cmd.brew ["list", "--cask"]])

/-- The `do_fix_casks` block: list the installed casks (a subprocess in
every mode), detect installed casks whose application bundle is absent,
and reinstall them under the mapped names in apply mode only. -/
def brew_fix_block (brew_bin : String) (fix_casks : List String)
    (brewOut : List String → Int × String × String)
    (appPresent : String → Bool) (mode : String) :
    List String × List Cmd :=
  let r := brewOut ["list", "--cask"]
  let echo := "→ " ++ joinSpace [brew_bin, "list", "--cask"]
  if !(r.1 == 0) then
    ([echo, "brew: could not list casks for fix"],
      [Cmd.brew ["list", "--cask"]])
  else
    let installed := (py_splitlines r.2.1.data).filterMap (fun l =>
      let t := pyStrip ⟨l⟩
      if t.data.isEmpty then none else some (strLower t))
    let missing_casks := fix_casks.filterMap (fun app =>
      if installed.contains (strLower app) && !(appPresent app) then
        some (mapCaskName app)
      else none)
    if missing_casks.isEmpty then
      ([echo, "brew: no missing cask apps detected"],
        [Cmd.brew ["list", "--cask"]])
    else if !(mode == MODE_APPLY) then
      ([echo, "brew: would reinstall missing casks: " ++
        joinComma missing_casks], [Cmd.brew ["list", "--cask"]])
    else
      ([echo, "brew: reinstalling missing casks: " ++
          joinComma missing_casks,
        "→ " ++ joinSpace (brew_bin :: "uninstall" :: "--cask" ::
          missing_casks),
        "→ " ++ joinSpace (brew_bin :: "install" :: "--cask" ::
          missing_casks)],
        [Cmd.brew ["list", "--cask"],
         Cmd.brew ("uninstall" :: "--cask" :: missing_casks),
         Cmd.brew ("install" :: "--cask" :: missing_casks)])

/-- `task_brew_maintenance` of `mac_maintenance.py` (lines 1513-1640), with
the brew outcomes (`brewOut args` = exit code, stdout, stderr), the
executability of the brew binary and the presence of application bundles
passed explicitly. -/
def task_brew_maintenance (home brew_bin : String) (brewBinOK : Bool)
    (list_file cask_file : String) (flags : BrewFlags)
    (fix_casks : List String)
    (brewOut : List String → Int × String × String)
    (appPresent : String → Bool) (mode : String) (fs : FS) : TaskOut :=
  if !(strStartsWith brew_bin "/") then
    ⟨fs, [], [], some "brew bin must be an absolute path"⟩
  else if !brewBinOK then
    ⟨fs, [], [], some ("brew bin not executable: " ++ brew_bin)⟩
  else
    match validate_home_path home list_file "brew list file" with
    | Except.error e => ⟨fs, [], [], some e⟩
    | Except.ok listFile =>
      match validate_home_path home cask_file "brew cask file" with
      | Except.error e => ⟨fs, [], [], some e⟩
      | Except.ok caskFile =>
        let defaulted := (mode == MODE_REPORT || mode == MODE_DRY_RUN) &&
          !anyBrewFlag flags
        let do_doctor := flags.do_doctor || defaulted
        let do_list := flags.do_list || defaulted
        let do_cask_list := flags.do_cask_list || defaulted
        let mr := maybe_run brew_bin brewOut mode
        let s1 := if flags.do_update then mr "update" ["update"] false
                  else ([], [])
        let s2 := if flags.do_upgrade then mr "upgrade" ["upgrade"] false
                  else ([], [])
        let s3 := if flags.do_upgrade_cask then
                    mr "upgrade cask" ["upgrade", "--cask", "--greedy"]
                      false
                  else ([], [])
        let s4 := if flags.do_autoremove then
                    mr "autoremove" ["autoremove"] false
                  else ([], [])
        let s5 := if flags.do_cleanup then
                    mr "cleanup" ["cleanup", "--prune=7", "--quiet"] false
                  else ([], [])
        let s6 := if do_doctor then mr "doctor" ["doctor"] true
                  else ([], [])
        let s7 := if flags.do_missing then mr "missing" ["missing"] true
                  else ([], [])
        let s8 := if flags.do_untap then
                    mr "untap" ["untap", "--force",
                      "Homebrew/homebrew-bundle",
                      "Homebrew/homebrew-services"] false
                  else ([], [])
        let s9 := if do_list then
                    brew_list_block brew_bin listFile brewOut mode fs
                  else (fs, [], [])
        let s10 := if do_cask_list then
                     brew_cask_list_block brew_bin caskFile brewOut mode
                       s9.1
                   else (s9.1, [], [])
        let s11 := if flags.do_fix_casks then
                     brew_fix_block brew_bin fix_casks brewOut appPresent
                       mode
                   else ([], [])
        ⟨s10.1,
          s1.1 ++ s2.1 ++ s3.1 ++ s4.1 ++ s5.1 ++ s6.1 ++ s7.1 ++ s8.1 ++
            s9.2.1 ++ s10.2.1 ++ s11.1,
          s1.2 ++ s2.2 ++ s3.2 ++ s4.2 ++ s5.2 ++ s6.2 ++ s7.2 ++ s8.2 ++
            s9.2.2 ++ s10.2.2 ++ s11.2, none⟩

theorem contains_would_delete (n sstr : String) :
    strContains ("would delete: " ++ n ++ " (" ++ sstr ++ ")")
      "would delete" = true := by
  unfold strContains
  have h : ("would delete: " ++ n ++ " (" ++ sstr ++ ")").data =
      "would delete".data ++ (": ".data ++ (n.data ++ (" (".data ++
        (sstr.data ++ ")".data)))) := by
    show "would delete: ".data ++ n.data ++ " (".data ++ sstr.data ++
      ")".data = _
    rw [show "would delete: ".data = "would delete".data ++ ": ".data
      from rfl]
    simp [List.append_assoc]
  rw [h]
  exact containsSub_append_left _ _ (by decide)

theorem cleanup_loop_dry (archiveDir : String) (duo : String → Option Nat)
    (lst : List String) : ∀ fs : FS,
    (cleanup_loop archiveDir duo MODE_DRY_RUN lst fs).1 = fs ∧
      (∀ c ∈ (cleanup_loop archiveDir duo MODE_DRY_RUN lst fs).2.2,
        ∃ p, c = Cmd.du p) := by
  have hmode : (MODE_DRY_RUN == MODE_APPLY) = false := by decide
  induction lst with
  | nil =>
    intro fs
    refine ⟨rfl, ?_⟩
    intro c hc
    cases hc
  | cons n rest ih =>
    intro fs
    simp only [cleanup_loop, hmode, Bool.false_eq_true, if_false]
    refine ⟨(ih fs).1, ?_⟩
    intro c hc
    rw [List.mem_cons] at hc
    rcases hc with rfl | hc
    · exact ⟨_, rfl⟩
    · exact (ih fs).2 c hc

theorem cleanup_loop_dry_log (archiveDir : String)
    (duo : String → Option Nat) (n : String) (rest : List String)
    (fs : FS) :
    ∃ line ∈ (cleanup_loop archiveDir duo MODE_DRY_RUN (n :: rest)
        fs).2.1, strContains line "would delete" = true := by
  have hmode : (MODE_DRY_RUN == MODE_APPLY) = false := by decide
  simp only [cleanup_loop, hmode, Bool.false_eq_true, if_false]
  exact ⟨_, List.mem_cons_self _ _, contains_would_delete n _⟩

theorem archive_loop_dry (appSupport archiveDir delete_date : String)
    (zipOut : String → Int × String) (lst : List String) : ∀ fs : FS,
    (archive_loop appSupport archiveDir delete_date zipOut MODE_DRY_RUN
        lst fs).1 = fs ∧
      (archive_loop appSupport archiveDir delete_date zipOut MODE_DRY_RUN
        lst fs).2.2 = [] := by
  have hmode : (!(MODE_DRY_RUN == MODE_APPLY)) = true := by decide
  induction lst with
  | nil => intro fs; exact ⟨rfl, rfl⟩
  | cons folder rest ih =>
    intro fs
    simp only [archive_loop, hmode, if_true]
    split_ifs with h1
    · exact ⟨(ih fs).1, (ih fs).2⟩
    · exact ⟨(ih fs).1, (ih fs).2⟩

theorem chrome_clean_profile_dry (chromeDir profile : String)
    (names : List String) : ∀ fs : FS,
    (chrome_clean_profile chromeDir profile MODE_DRY_RUN names fs).1 =
      fs := by
  have hmode : (MODE_DRY_RUN == MODE_APPLY) = false := by decide
  induction names with
  | nil => intro fs; rfl
  | cons name rest ih =>
    intro fs
    simp only [chrome_clean_profile, hmode, Bool.false_eq_true, if_false]
    split_ifs with h1
    · exact ih fs
    · exact ih fs

theorem chrome_clean_loop_dry (chromeDir : String)
    (profiles : List String) : ∀ fs : FS,
    (chrome_clean_loop chromeDir MODE_DRY_RUN profiles fs).1 = fs := by
  induction profiles with
  | nil => intro fs; rfl
  | cons profile rest ih =>
    intro fs
    simp only [chrome_clean_loop]
    rw [chrome_clean_profile_dry]
    exact ih fs

theorem chrome_sizes_loop_cmds (chromeDir : String)
    (duo : String → Option Nat) (profiles : List String) :
    ∀ c ∈ (chrome_sizes_loop chromeDir duo profiles).2,
      ∃ p, c = Cmd.du p := by
  induction profiles with
  | nil => intro c hc; cases hc
  | cons profile rest ih =>
    intro c hc
    simp only [chrome_sizes_loop] at hc
    rw [List.mem_cons] at hc
    rcases hc with rfl | hc
    · exact ⟨_, rfl⟩
    · exact ih c hc

theorem maybe_run_dry_cmds (bb : String)
    (o : List String → Int × String × String) (d : String)
    (a : List String) (r : Bool) :
    (maybe_run bb o MODE_DRY_RUN d a r).2 = [] := by
  simp only [maybe_run,
    show (MODE_DRY_RUN == MODE_REPORT) = false from by decide,
    Bool.false_and, Bool.false_eq_true, if_false,
    show (MODE_DRY_RUN == MODE_DRY_RUN) = true from by decide, if_true]

theorem brew_list_block_dry (bb lf : String)
    (o : List String → Int × String × String) (fs : FS) :
    brew_list_block bb lf o MODE_DRY_RUN fs =
      (fs, ["brew: would write list to " ++ lf], []) := by
  simp only [brew_list_block,
    show (MODE_DRY_RUN == MODE_DRY_RUN) = true from by decide, if_true]

theorem brew_cask_list_block_dry (bb cf : String)
    (o : List String → Int × String × String) (fs : FS) :
    brew_cask_list_block bb cf o MODE_DRY_RUN fs =
      (fs, ["brew: would write cask list to " ++ cf], []) := by
  simp only [brew_cask_list_block,
    show (MODE_DRY_RUN == MODE_DRY_RUN) = true from by decide, if_true]

theorem brew_fix_block_dry_cmds (bb : String) (fc : List String)
    (o : List String → Int × String × String) (ap : String → Bool) :
    (brew_fix_block bb fc o ap MODE_DRY_RUN).2 =
      [Cmd.brew ["list", "--cask"]] := by
  simp only [brew_fix_block]
  split_ifs with h1 h2 h3
  · rfl
  · rfl
  · rfl
  · exact absurd (by decide :
      (!(MODE_DRY_RUN == MODE_APPLY)) = true) h3

theorem task_cleanup_archives_dry (home ad today : String)
    (duo : String → Option Nat) (fs : FS) :
    (task_cleanup_archives home ad today duo MODE_DRY_RUN fs).fs = fs ∧
      ∀ c ∈ (task_cleanup_archives home ad today duo MODE_DRY_RUN
        fs).cmds, ∃ p, c = Cmd.du p := by
  rcases hv : validate_home_path home ad "archive-dir" with e | a
  · simp only [task_cleanup_archives, hv]
    exact ⟨by trivial, fun c hc => absurd hc (List.not_mem_nil c)⟩
  · simp only [task_cleanup_archives, hv]
    split_ifs with h1 h2
    · exact ⟨by trivial, fun c hc => absurd hc (List.not_mem_nil c)⟩
    · exact ⟨by trivial, fun c hc => absurd hc (List.not_mem_nil c)⟩
    · refine ⟨(cleanup_loop_dry a duo _ fs).1, ?_⟩
      intro c hc
      exact (cleanup_loop_dry a duo _ fs).2 c hc

theorem task_cleanup_archives_dry_scenario (home ad today : String)
    (duo : String → Option Nat) (fs : FS)
    (h1 : strStartsWith ad home = true)
    (h2 : fs.dirs.contains ad = true)
    (h3 : (ad, "x_delete_2000-01-01.zip") ∈ fs.files)
    (h4 : pyStrLe "2000-01-01" today = true) :
    (ad, "x_delete_2000-01-01.zip") ∈
        (task_cleanup_archives home ad today duo MODE_DRY_RUN
          fs).fs.files ∧
      ∃ line ∈ (task_cleanup_archives home ad today duo MODE_DRY_RUN
        fs).log, strContains line "would delete" = true := by
  have hv : validate_home_path home ad "archive-dir" = Except.ok ad := by
    unfold validate_home_path
    rw [if_pos h1]
  simp only [task_cleanup_archives, hv]
  rw [if_neg (by rw [h2]; simp)]
  set names := (fs.files.filter (fun f => f.1 == ad)).map Prod.snd
    with hnames
  set candidates := names.filter (fun n =>
    match parse_archive_date n with
    | some d => pyStrLe d today
    | none => false) with hcand
  have hmem : "x_delete_2000-01-01.zip" ∈ candidates := by
    rw [hcand, List.mem_filter]
    constructor
    · rw [hnames, List.mem_map]
      refine ⟨(ad, "x_delete_2000-01-01.zip"), ?_, rfl⟩
      rw [List.mem_filter]
      exact ⟨h3, by simp⟩
    · rw [show parse_archive_date "x_delete_2000-01-01.zip" =
        some "2000-01-01" from by decide]
      exact h4
  rw [if_neg (by
    simp only [List.isEmpty_iff]
    exact List.ne_nil_of_mem hmem)]
  constructor
  · rw [(cleanup_loop_dry ad duo candidates fs).1]
    exact h3
  · obtain ⟨n, rest, hcons⟩ :=
      List.exists_cons_of_ne_nil (List.ne_nil_of_mem hmem)
    rw [hcons]
    obtain ⟨line, hl, hcont⟩ := cleanup_loop_dry_log ad duo n rest fs
    exact ⟨line, List.mem_cons_of_mem _ hl, hcont⟩

theorem task_archive_orphans_dry (home asd ad dd : String)
    (folders : List String) (z : String → Int × String) (fs : FS) :
    (task_archive_orphans home asd ad dd folders z MODE_DRY_RUN fs).fs =
        (if strStartsWith ad home = true then addDir fs ad else fs) ∧
      (task_archive_orphans home asd ad dd folders z MODE_DRY_RUN
        fs).cmds = [] := by
  by_cases h : strStartsWith ad home = true
  · have hv : validate_home_path home ad "archive-dir" =
        Except.ok ad := by
      unfold validate_home_path
      rw [if_pos h]
    simp only [task_archive_orphans, hv]
    rw [if_pos h]
    exact ⟨(archive_loop_dry asd ad dd z folders (addDir fs ad)).1,
      (archive_loop_dry asd ad dd z folders (addDir fs ad)).2⟩
  · have hv : validate_home_path home ad "archive-dir" =
        Except.error ("archive-dir" ++ " must be within " ++ home) := by
      unfold validate_home_path
      rw [if_neg h]
    simp only [task_archive_orphans, hv]
    rw [if_neg h]
    exact ⟨by trivial, by trivial⟩

theorem task_chrome_cleanup_dry (home cd : String)
    (running closeOk kill : Bool) (duo : String → Option Nat) (fs : FS) :
    (task_chrome_cleanup home cd running closeOk kill duo MODE_DRY_RUN
        fs).fs = fs ∧
      ∀ c ∈ (task_chrome_cleanup home cd running closeOk kill duo
          MODE_DRY_RUN fs).cmds,
        (∃ p, c = Cmd.du p) ∨ ∃ p, c = Cmd.pgrep p := by
  rcases hv : validate_home_path home cd "chrome-dir" with e | a
  · simp only [task_chrome_cleanup, hv]
    exact ⟨by trivial, fun c hc => absurd hc (List.not_mem_nil c)⟩
  · simp only [task_chrome_cleanup, hv]
    by_cases h1 : fs.dirs.contains a = false
    · rw [if_pos h1]
      exact ⟨by trivial, fun c hc => absurd hc (List.not_mem_nil c)⟩
    · rw [if_neg h1]
      by_cases h2 : (running && !kill) = true
      · rw [if_pos h2]
        refine ⟨by trivial, ?_⟩
        intro c hc
        rw [List.mem_singleton] at hc
        exact Or.inr ⟨_, hc⟩
      · rw [if_neg h2]
        by_cases h3 : (running && !(MODE_DRY_RUN == MODE_APPLY)) = true
        · rw [if_pos h3]
          refine ⟨by trivial, ?_⟩
          intro c hc
          rw [List.mem_singleton] at hc
          exact Or.inr ⟨_, hc⟩
        · rw [if_neg h3]
          have hrun : running = false := by
            cases hr : running
            · rfl
            · exfalso
              apply h3
              rw [hr]
              decide
          rw [if_neg (by rw [hrun]; simp : ¬ ((running && !closeOk) =
            true))]
          rw [if_neg (by rw [hrun]; simp : ¬ (running = true))]
          by_cases h5 : (List.filter (fun n => n == "Default" ||
              strStartsWith n "Profile ") (childDirs fs a)).isEmpty = true
          · rw [if_pos h5]
            refine ⟨by trivial, ?_⟩
            intro c hc
            rw [List.mem_singleton] at hc
            exact Or.inr ⟨_, hc⟩
          · rw [if_neg h5]
            refine ⟨chrome_clean_loop_dry a _ fs, ?_⟩
            intro c hc
            rw [List.mem_append] at hc
            rcases hc with hc | hc
            · rw [List.mem_singleton] at hc
              exact Or.inr ⟨_, hc⟩
            · rcases chrome_sizes_loop_cmds a duo _ c hc with ⟨p, hp⟩
              exact Or.inl ⟨p, hp⟩

theorem task_copy_speed_test_dry (src dst : String)
    (duo : String → Option Nat) (rc : Int) (dur : Nat) (fs : FS) :
    (task_copy_speed_test src dst duo rc dur MODE_DRY_RUN fs).fs = fs ∧
      ∀ c ∈ (task_copy_speed_test src dst duo rc dur MODE_DRY_RUN
        fs).cmds, ∃ p, c = Cmd.du p := by
  simp only [task_copy_speed_test]
  by_cases h1 : pathExists fs src = false
  · rw [if_pos h1]
    exact ⟨by trivial, fun c hc => absurd hc (List.not_mem_nil c)⟩
  · rw [if_neg h1]
    by_cases h2 : fs.dirs.contains (parentDir dst) = false
    · rw [if_pos h2]
      exact ⟨by trivial, fun c hc => absurd hc (List.not_mem_nil c)⟩
    · rw [if_neg h2]
      rw [if_pos (by decide : (!(MODE_DRY_RUN == MODE_APPLY)) = true)]
      refine ⟨by trivial, ?_⟩
      intro c hc
      rw [List.mem_singleton] at hc
      exact ⟨_, hc⟩

theorem task_brew_maintenance_dry (home bb : String) (ok : Bool)
    (lf cf : String) (flags : BrewFlags) (fc : List String)
    (o : List String → Int × String × String) (ap : String → Bool)
    (fs : FS) :
    (task_brew_maintenance home bb ok lf cf flags fc o ap MODE_DRY_RUN
        fs).fs = fs ∧
      ∀ c ∈ (task_brew_maintenance home bb ok lf cf flags fc o ap
          MODE_DRY_RUN fs).cmds, c = Cmd.brew ["list", "--cask"] := by
  have hmr : ∀ (b : Bool) (d : String) (a : List String) (r : Bool),
      (if b = true then maybe_run bb o MODE_DRY_RUN d a r
       else (([] : List String), ([] : List Cmd))).2 = [] := by
    intro b d a r
    cases b
    · rfl
    · rw [if_pos rfl, maybe_run_dry_cmds]
  have hlist : ∀ (b : Bool) (lf0 : String) (fs0 : FS),
      (if b = true then brew_list_block bb lf0 o MODE_DRY_RUN fs0
       else (fs0, ([] : List String), ([] : List Cmd))) =
        (fs0, (if b = true then ["brew: would write list to " ++ lf0]
          else []), ([] : List Cmd)) := by
    intro b lf0 fs0
    cases b
    · rfl
    · rw [if_pos rfl, brew_list_block_dry, if_pos rfl]
  have hcask : ∀ (b : Bool) (cf0 : String) (fs0 : FS),
      (if b = true then brew_cask_list_block bb cf0 o MODE_DRY_RUN fs0
       else (fs0, ([] : List String), ([] : List Cmd))) =
        (fs0, (if b = true then
          ["brew: would write cask list to " ++ cf0]
          else []), ([] : List Cmd)) := by
    intro b cf0 fs0
    cases b
    · rfl
    · rw [if_pos rfl, brew_cask_list_block_dry, if_pos rfl]
  have hfix : ∀ (b : Bool), ∀ c ∈ (if b = true then
      brew_fix_block bb fc o ap MODE_DRY_RUN
      else (([] : List String), ([] : List Cmd))).2,
      c = Cmd.brew ["list", "--cask"] := by
    intro b c hc
    cases b
    · exact absurd hc (List.not_mem_nil c)
    · rw [if_pos rfl, brew_fix_block_dry_cmds] at hc
      rw [List.mem_singleton] at hc
      exact hc
  by_cases hb1 : (!(strStartsWith bb "/")) = true
  · simp only [task_brew_maintenance, hb1, if_true]
    exact ⟨by trivial, fun c hc => absurd hc (List.not_mem_nil c)⟩
  · simp only [task_brew_maintenance, hb1, Bool.false_eq_true, if_false]
    by_cases hb2 : (!ok) = true
    · rw [if_pos hb2]
      exact ⟨by trivial, fun c hc => absurd hc (List.not_mem_nil c)⟩
    · rw [if_neg hb2]
      rcases hv1 : validate_home_path home lf "brew list file" with e | a
      · simp only [hv1]
        exact ⟨by trivial, fun c hc => absurd hc (List.not_mem_nil c)⟩
      · simp only [hv1]
        rcases hv2 : validate_home_path home cf "brew cask file"
          with e | a2
        · simp only [hv2]
          exact ⟨by trivial, fun c hc => absurd hc (List.not_mem_nil c)⟩
        · simp only [hv2]
          rw [hlist, hcask]
          refine ⟨rfl, ?_⟩
          intro c hc
          simp only [hmr, List.nil_append, List.append_nil,
            List.mem_append] at hc
          exact hfix _ c hc

/-- The counterexample to C3 as stated: in dry-run mode
`task_archive_orphans` still creates the archive directory (`ensure_dir`
runs before any mode check), a filesystem mutation. -/
theorem dry_run_not_mutation_free :
    (task_archive_orphans "/Users/u" "/Users/u/AS" "/Users/u/Archives"
        "2026-01-10" [] (fun _ => (0, "")) MODE_DRY_RUN
        ⟨["/Users/u"], []⟩).fs ≠ ⟨["/Users/u"], []⟩ := by
  decide

/-- C3 amended: in dry-run mode every mutating task leaves the filesystem
unchanged and spawns only read-only inspection subprocesses (`du`, `pgrep`,
`brew list --cask`), with the single exception that `archive-orphans`
creates the archive directory (its `ensure_dir` call precedes the mode
check); in particular, with an archive named `x_delete_2000-01-01.zip`
(a past date) present, dry-run `cleanup-archives` leaves the file in place
and logs a line containing `would delete`. -/
theorem dry_run_frame_effects :
    (∀ (home ad today : String) (duo : String → Option Nat) (fs : FS),
      (task_cleanup_archives home ad today duo MODE_DRY_RUN fs).fs = fs ∧
        ∀ c ∈ (task_cleanup_archives home ad today duo MODE_DRY_RUN
          fs).cmds, ∃ p, c = Cmd.du p) ∧
    (∀ (home ad today : String) (duo : String → Option Nat) (fs : FS),
      strStartsWith ad home = true →
      fs.dirs.contains ad = true →
      (ad, "x_delete_2000-01-01.zip") ∈ fs.files →
      pyStrLe "2000-01-01" today = true →
      (ad, "x_delete_2000-01-01.zip") ∈
          (task_cleanup_archives home ad today duo MODE_DRY_RUN
            fs).fs.files ∧
        ∃ line ∈ (task_cleanup_archives home ad today duo MODE_DRY_RUN
          fs).log, strContains line "would delete" = true) ∧
    (∀ (home asd ad dd : String) (folders : List String)
        (z : String → Int × String) (fs : FS),
      (task_archive_orphans home asd ad dd folders z MODE_DRY_RUN fs).fs =
          (if strStartsWith ad home = true then addDir fs ad else fs) ∧
        (task_archive_orphans home asd ad dd folders z MODE_DRY_RUN
          fs).cmds = []) ∧
    (∀ (home cd : String) (running closeOk kill : Bool)
        (duo : String → Option Nat) (fs : FS),
      (task_chrome_cleanup home cd running closeOk kill duo MODE_DRY_RUN
          fs).fs = fs ∧
        ∀ c ∈ (task_chrome_cleanup home cd running closeOk kill duo
            MODE_DRY_RUN fs).cmds,
          (∃ p, c = Cmd.du p) ∨ ∃ p, c = Cmd.pgrep p) ∧
    (∀ (src dst : String) (duo : String → Option Nat) (rc : Int)
        (dur : Nat) (fs : FS),
      (task_copy_speed_test src dst duo rc dur MODE_DRY_RUN fs).fs = fs ∧
        ∀ c ∈ (task_copy_speed_test src dst duo rc dur MODE_DRY_RUN
          fs).cmds, ∃ p, c = Cmd.du p) ∧
    (∀ (home bb : String) (ok : Bool) (lf cf : String)
        (flags : BrewFlags) (fc : List String)
        (o : List String → Int × String × String) (ap : String → Bool)
        (fs : FS),
      (task_brew_maintenance home bb ok lf cf flags fc o ap MODE_DRY_RUN
          fs).fs = fs ∧
        ∀ c ∈ (task_brew_maintenance home bb ok lf cf flags fc o ap
          MODE_DRY_RUN fs).cmds, c = Cmd.brew ["list", "--cask"]) := by
  refine ⟨?_, ?_, ?_, ?_, ?_, ?_⟩
  · exact fun home ad today duo fs =>
      task_cleanup_archives_dry home ad today duo fs
  · exact fun home ad today duo fs h1 h2 h3 h4 =>
      task_cleanup_archives_dry_scenario home ad today duo fs h1 h2 h3 h4
  · exact fun home asd ad dd folders z fs =>
      task_archive_orphans_dry home asd ad dd folders z fs
  · exact fun home cd running closeOk kill duo fs =>
      task_chrome_cleanup_dry home cd running closeOk kill duo fs
  · exact fun src dst duo rc dur fs =>
      task_copy_speed_test_dry src dst duo rc dur fs
  · exact fun home bb ok lf cf flags fc o ap fs =>
      task_brew_maintenance_dry home bb ok lf cf flags fc o ap fs

/-- Witness for the amended C3: the concrete `x_delete_2000-01-01.zip`
scenario, with all hypotheses discharged by computation. -/
theorem dry_run_frame_effects_witness :
    ("/Users/u/Archives", "x_delete_2000-01-01.zip") ∈
        (task_cleanup_archives "/Users/u" "/Users/u/Archives" "2026-10-12"
          (fun _ => none) MODE_DRY_RUN
          ⟨["/Users/u/Archives"],
            [("/Users/u/Archives", "x_delete_2000-01-01.zip")]⟩).fs.files ∧
      ∃ line ∈ (task_cleanup_archives "/Users/u" "/Users/u/Archives"
          "2026-10-12" (fun _ => none) MODE_DRY_RUN
          ⟨["/Users/u/Archives"],
            [("/Users/u/Archives", "x_delete_2000-01-01.zip")]⟩).log,
        strContains line "would delete" = true :=
  dry_run_frame_effects.2.1 "/Users/u" "/Users/u/Archives" "2026-10-12"
    (fun _ => none) ⟨["/Users/u/Archives"],
      [("/Users/u/Archives", "x_delete_2000-01-01.zip")]⟩
    (by decide) (by decide) (by decide) (by decide)
